import Mathlib

/-!
Verification of the register pressure tracker (lib/CodeGen/RegisterPressure.cpp).

The C++ source is shallowly embedded: machine operands, instructions and the
target oracles become plain data; vectors of unsigned counters become
`List Nat` with truncated subtraction standing for the release-mode behaviour
of the asserted decrements; the instruction-stream cursor becomes a `Nat`
index into a `List MachineInstr`, with the index `block.length` playing the
role of the end iterator; a nullable SlotIndex or block iterator becomes an
`Option Nat`.  Every branch of the source, including its questionable ones,
is translated as written.
-/

namespace RegPressure

/-- One machine operand, exposing exactly the predicates the tracker reads:
isReg, the register id (0 meaning absent), readsReg, isDef, isDead. -/
structure MachineOperand where
  isReg : Bool
  reg : Nat
  readsReg : Bool
  isDef : Bool
  isDead : Bool
deriving DecidableEq

/-- One machine instruction: a debug-value flag and its bundle operands. -/
structure MachineInstr where
  isDebugValue : Bool
  operands : List MachineOperand
deriving DecidableEq

/-- The external oracles consumed by the tracker: TargetRegisterInfo,
MachineRegisterInfo, RegisterClassInfo and the LiveIntervals analysis.
Register classes are identified by a Nat.  `overlaps r` models
TRI->getOverlaps(r), the self-first zero-terminated alias list.
`slotOf i` models LIS->getInstructionIndex(pos).getRegSlot() for the
instruction at block index `i`, and `mbbEndIdx` models LIS->getMBBEndIdx. -/
structure Machine where
  numPressureSets : Nat
  isVirtualReg : Nat → Bool
  classWeight : Nat → Nat
  classPressureSets : Nat → List Nat
  minimalPhysRegClass : Nat → Nat
  mriRegClass : Nat → Nat
  overlaps : Nat → List Nat
  isAllocatable : Nat → Bool
  killedAt : Nat → Nat → Bool
  slotOf : Nat → Nat
  mbbEndIdx : Nat

/-- The loop body of increaseSetPressure: for each pressure set in the
class's list, add the weight to the current counter and raise the max
counter when the new current value exceeds it.  Returns (curr, max). -/
def incSets (w : Nat) : List Nat → List Nat × List Nat → List Nat × List Nat
  | [], cm => cm
  | q :: qs, (c, mx) =>
      let c2 := c.set q (c.getD q 0 + w)
      let mx2 := if mx.getD q 0 < c2.getD q 0 then mx.set q (c2.getD q 0) else mx
      incSets w qs (c2, mx2)

/-- The loop body of decreaseSetPressure: subtract the weight from each
impacted counter (truncated subtraction models the asserted unsigned
subtraction in release mode). -/
def decSets (w : Nat) : List Nat → List Nat → List Nat
  | [], c => c
  | q :: qs, c => decSets w qs (c.set q (c.getD q 0 - w))

/-- increaseSetPressure for register class rc. -/
def increaseSetPressure (m : Machine) (rc : Nat) (cm : List Nat × List Nat) :
    List Nat × List Nat :=
  incSets (m.classWeight rc) (m.classPressureSets rc) cm

/-- decreaseSetPressure for register class rc. -/
def decreaseSetPressure (m : Machine) (rc : Nat) (c : List Nat) : List Nat :=
  decSets (m.classWeight rc) (m.classPressureSets rc) c

/-- The RegisterPressure result record.  The two C++ variants
(IntervalPressure with SlotIndex boundaries, RegionPressure with iterator
boundaries) are modelled by one record carrying both kinds of nullable
boundary; the tracker's requireIntervals flag selects which pair is used,
mirroring the static_cast dispatch in the source. -/
structure RPResult where
  maxSetPressure : List Nat
  liveInRegs : List Nat
  liveOutRegs : List Nat
  topIdx : Option Nat
  bottomIdx : Option Nat
  topPos : Option Nat
  bottomPos : Option Nat
deriving DecidableEq

/-- RegisterPressure::increase: increaseSetPressure(MaxSetPressure,
MaxSetPressure, RC, TRI).  Both references alias the max vector, so the
net effect is max[p] += weight for each impacted set; the aliased
behaviour is exactly the first component of incSets applied to the pair
(max, max). -/
def RPResult.increase (m : Machine) (rc : Nat) (P : RPResult) : RPResult :=
  { P with maxSetPressure :=
      (incSets (m.classWeight rc) (m.classPressureSets rc)
        (P.maxSetPressure, P.maxSetPressure)).1 }

/-- IntervalPressure::reset / RegionPressure::reset combined: clear both
boundary kinds, the max vector and the live lists. -/
def RPResult.reset : RPResult :=
  { maxSetPressure := [], liveInRegs := [], liveOutRegs := []
    topIdx := none, bottomIdx := none, topPos := none, bottomPos := none }

/-- IntervalPressure::openTop: if the current top is not less than or
equal to the next index, clear the top and clear the live-in list.  The
invalid (none) boundary is treated as minimal; every call site guards
with a validity check, so this choice is unobservable in the drivers. -/
def openTopI (P : RPResult) (nextTop : Nat) : RPResult :=
  if (match P.topIdx with | some t => decide (t ≤ nextTop) | none => true)
  then P
  else { P with topIdx := none, liveInRegs := [] }

/-- RegionPressure::openTop: open only when the stored top equals the
previous position. -/
def openTopR (P : RPResult) (prevTop : Nat) : RPResult :=
  if P.topPos ≠ some prevTop then P
  else { P with topPos := none, liveInRegs := [] }

/-- IntervalPressure::openBottom, translated exactly as written: when the
bottom is not strictly greater than the mark, it clears the bottom
boundary and clears the LIVE-IN list (the source mutates LiveInRegs here,
not LiveOutRegs). -/
def openBottomI (P : RPResult) (prevBottom : Nat) : RPResult :=
  if (match P.bottomIdx with | some b => decide (prevBottom < b) | none => false)
  then P
  else { P with bottomIdx := none, liveInRegs := [] }

/-- RegionPressure::openBottom, translated exactly as written: opens only
when the stored bottom equals the previous position, and clears the
LIVE-IN list (as in the source). -/
def openBottomR (P : RPResult) (prevBottom : Nat) : RPResult :=
  if P.bottomPos ≠ some prevBottom then P
  else { P with bottomPos := none, liveInRegs := [] }

/-- hasRegAlias / findRegAlias / the physical branch of findReg: some
element of the target's alias list for reg occurs in the collection.
The C++ versions differ only in container type and in returning an
iterator rather than a Bool; every caller only tests against end(). -/
def aliasIn (m : Machine) (reg : Nat) (l : List Nat) : Bool :=
  (m.overlaps reg).any (fun a => l.contains a)

/-- findReg: identity search for virtual registers, alias search for
physical registers. -/
def findRegB (m : Machine) (isV : Bool) (reg : Nat) (l : List Nat) : Bool :=
  if isV then l.contains reg else aliasIn m reg l

/-- The three deduplicated operand lists collected per instruction
(RegisterOperands). -/
structure RegOps where
  uses : List Nat
  defs : List Nat
  deadDefs : List Nat
deriving DecidableEq

/-- RegisterOperands::collect for a single operand. -/
def RegOps.collect (m : Machine) (isV : Bool) (o : MachineOperand) (R : RegOps) :
    RegOps :=
  let R1 := if o.readsReg && !findRegB m isV o.reg R.uses
            then { R with uses := R.uses ++ [o.reg] } else R
  if o.isDef then
    if o.isDead then
      if !findRegB m isV o.reg R1.deadDefs
      then { R1 with deadDefs := R1.deadDefs ++ [o.reg] } else R1
    else
      if !findRegB m isV o.reg R1.defs
      then { R1 with defs := R1.defs ++ [o.reg] } else R1
  else R1

/-- collectOperands: route each register operand to the physical or
virtual record, then prune physical dead defs that alias a live def. -/
def collectOperands (m : Machine) (I : MachineInstr) : RegOps × RegOps :=
  let pv := I.operands.foldl
    (fun (pv : RegOps × RegOps) o =>
      if !o.isReg || o.reg == 0 then pv
      else if m.isVirtualReg o.reg then (pv.1, RegOps.collect m true o pv.2)
      else if m.isAllocatable o.reg then (RegOps.collect m false o pv.1, pv.2)
      else pv)
    (⟨[], [], []⟩, ⟨[], [], []⟩)
  let phys := pv.1
  ({ phys with deadDefs := phys.deadDefs.filter (fun r => !aliasIn m r phys.defs) },
   pv.2)

/-- The tracker state: variant flag, cursor (index into the block, with
block.length as the end iterator), current pressure, the owned result,
and the two live sets (modelled as lists in insertion order; the source's
SparseSet membership, insert and erase are by exact identity). -/
structure Tracker where
  requireIntervals : Bool
  currPos : Nat
  currSetPressure : List Nat
  p : RPResult
  livePhysRegs : List Nat
  liveVirtRegs : List Nat
deriving DecidableEq

/-- Generic left-to-right chain of a per-register transform over a list,
the shape shared by every operand-processing loop in the drivers. -/
def chainL (f : Tracker → Nat → Tracker) : Tracker → List Nat → Tracker
  | ts, [] => ts
  | ts, r :: rs => chainL f (f ts r) rs

/-- increasePhysRegPressure for one register: raise curr and the result's
max by the weight of the register's minimal physical class. -/
def incPhysOne (m : Machine) (ts : Tracker) (r : Nat) : Tracker :=
  let cm := increaseSetPressure m (m.minimalPhysRegClass r)
      (ts.currSetPressure, ts.p.maxSetPressure)
  { ts with currSetPressure := cm.1, p := { ts.p with maxSetPressure := cm.2 } }

/-- decreasePhysRegPressure for one register. -/
def decPhysOne (m : Machine) (ts : Tracker) (r : Nat) : Tracker :=
  { ts with currSetPressure :=
      decreaseSetPressure m (m.minimalPhysRegClass r) ts.currSetPressure }

/-- increaseVirtRegPressure for one register (class from MRI). -/
def incVirtOne (m : Machine) (ts : Tracker) (r : Nat) : Tracker :=
  let cm := increaseSetPressure m (m.mriRegClass r)
      (ts.currSetPressure, ts.p.maxSetPressure)
  { ts with currSetPressure := cm.1, p := { ts.p with maxSetPressure := cm.2 } }

/-- decreaseVirtRegPressure for one register. -/
def decVirtOne (m : Machine) (ts : Tracker) (r : Nat) : Tracker :=
  { ts with currSetPressure :=
      decreaseSetPressure m (m.mriRegClass r) ts.currSetPressure }

def incPhysList (m : Machine) (ts : Tracker) (rs : List Nat) : Tracker :=
  chainL (incPhysOne m) ts rs

def decPhysList (m : Machine) (ts : Tracker) (rs : List Nat) : Tracker :=
  chainL (decPhysOne m) ts rs

def incVirtList (m : Machine) (ts : Tracker) (rs : List Nat) : Tracker :=
  chainL (incVirtOne m) ts rs

def decVirtList (m : Machine) (ts : Tracker) (rs : List Nat) : Tracker :=
  chainL (decVirtOne m) ts rs

/-- RegPressureTracker::discoverPhysLiveIn, translated exactly as written:
the source returns early when findRegAlias(Reg, LiveInRegs) equals end()
(no alias present), and appends plus bumps max when an alias is present. -/
def discoverPhysLiveIn (m : Machine) (ts : Tracker) (reg : Nat) : Tracker :=
  if !aliasIn m reg ts.p.liveInRegs then ts
  else
    let P2 := { ts.p with liveInRegs := ts.p.liveInRegs ++ [reg] }
    { ts with p := RPResult.increase m (m.minimalPhysRegClass reg) P2 }

/-- RegPressureTracker::discoverPhysLiveOut, translated exactly as
written (same early-return polarity as discoverPhysLiveIn). -/
def discoverPhysLiveOut (m : Machine) (ts : Tracker) (reg : Nat) : Tracker :=
  if !aliasIn m reg ts.p.liveOutRegs then ts
  else
    let P2 := { ts.p with liveOutRegs := ts.p.liveOutRegs ++ [reg] }
    { ts with p := RPResult.increase m (m.minimalPhysRegClass reg) P2 }

/-- RegPressureTracker::discoverVirtLiveIn: return if the register is
already in the live-in list, else append it and bump max directly. -/
def discoverVirtLiveIn (m : Machine) (ts : Tracker) (reg : Nat) : Tracker :=
  if ts.p.liveInRegs.contains reg then ts
  else
    let P2 := { ts.p with liveInRegs := ts.p.liveInRegs ++ [reg] }
    { ts with p := RPResult.increase m (m.mriRegClass reg) P2 }

/-- RegPressureTracker::discoverVirtLiveOut. -/
def discoverVirtLiveOut (m : Machine) (ts : Tracker) (reg : Nat) : Tracker :=
  if ts.p.liveOutRegs.contains reg then ts
  else
    let P2 := { ts.p with liveOutRegs := ts.p.liveOutRegs ++ [reg] }
    { ts with p := RPResult.increase m (m.mriRegClass reg) P2 }

/-- Insertion into a sorted list, for std::sort on the boundary lists. -/
def insertSorted (x : Nat) : List Nat → List Nat
  | [] => [x]
  | y :: ys => if x ≤ y then x :: y :: ys else y :: insertSorted x ys

/-- Sort (insertion sort; std::sort on Nat keys agrees pointwise). -/
def insSort : List Nat → List Nat
  | [] => []
  | x :: xs => insertSorted x (insSort xs)

/-- std::unique followed by erase: drop adjacent duplicates. -/
def dedupAdj : List Nat → List Nat
  | [] => []
  | [x] => [x]
  | x :: y :: rest =>
      if x == y then dedupAdj (y :: rest) else x :: dedupAdj (y :: rest)

/-- isTopClosed, translated exactly as written: for the interval variant,
TopIdx.isValid(); for the region variant the source compares TopPos ==
default iterator, i.e. it reports closed when the position is the null
one. -/
def isTopClosed (ts : Tracker) : Bool :=
  if ts.requireIntervals then ts.p.topIdx.isSome else ts.p.topPos.isNone

/-- isBottomClosed, translated exactly as written (same comparison shape
as isTopClosed). -/
def isBottomClosed (ts : Tracker) : Bool :=
  if ts.requireIntervals then ts.p.bottomIdx.isSome else ts.p.bottomPos.isNone

/-- closeTop: record the cursor as the top boundary and materialize the
live-in list by appending both live sets and sorting/deduplicating.  (The
source asserts LiveInRegs.empty() first; the append happens regardless,
so it is translated on the appended list.) -/
def closeTop (m : Machine) (ts : Tracker) : Tracker :=
  let P := if ts.requireIntervals
           then { ts.p with topIdx := some (m.slotOf ts.currPos) }
           else { ts.p with topPos := some ts.currPos }
  let li := dedupAdj (insSort (P.liveInRegs ++ ts.livePhysRegs ++ ts.liveVirtRegs))
  { ts with p := { P with liveInRegs := li } }

/-- closeBottom: record the cursor (block-end index at the end iterator)
as the bottom boundary and materialize the live-out list. -/
def closeBottom (m : Machine) (blockLen : Nat) (ts : Tracker) : Tracker :=
  let bIdx := if ts.currPos == blockLen then m.mbbEndIdx else m.slotOf ts.currPos
  let P := if ts.requireIntervals
           then { ts.p with bottomIdx := some bIdx }
           else { ts.p with bottomPos := some ts.currPos }
  let lo := dedupAdj (insSort (P.liveOutRegs ++ ts.livePhysRegs ++ ts.liveVirtRegs))
  { ts with p := { P with liveOutRegs := lo } }

/-- closeRegion: close whichever boundary is still open; when both are
open the source asserts that the live sets are empty and returns. -/
def closeRegion (m : Machine) (blockLen : Nat) (ts : Tracker) : Tracker :=
  if !isTopClosed ts && !isBottomClosed ts then ts
  else if !isBottomClosed ts then closeBottom m blockLen ts
  else if !isTopClosed ts then closeTop m ts
  else ts

/-- The condition of the "no region boundary" assertion inside
closeRegion: both boundaries test open while a live set is nonempty. -/
def closeRegionAssertFires (ts : Tracker) : Bool :=
  !isTopClosed ts && !isBottomClosed ts &&
    !(ts.livePhysRegs.isEmpty && ts.liveVirtRegs.isEmpty)

/-- Default (dummy) instruction used for out-of-range indexing; it is
never reached by the guarded drivers. -/
def dummyInstr : MachineInstr := { isDebugValue := false, operands := [] }

def instrAt (B : List MachineInstr) (i : Nat) : MachineInstr := B.getD i dummyInstr

def isDebugAt (B : List MachineInstr) (i : Nat) : Bool := (instrAt B i).isDebugValue

/-- Number of leading debug-value instructions of a list. -/
def firstNonDebug : List MachineInstr → Nat
  | [] => 0
  | I :: rest => if I.isDebugValue then firstNonDebug rest + 1 else 0

/-- The forward skip loop (init and the tail of advance):
while (CurrPos != end() && CurrPos->isDebugValue()) ++CurrPos. -/
def fwdSkip (B : List MachineInstr) (pos : Nat) : Nat :=
  pos + firstNonDebug (B.drop pos)

/-- The backward reposition loop of recede, after the initial decrement:
while (CurrPos != begin() && CurrPos->isDebugValue()) --CurrPos, started
at the given index. -/
def goBack (B : List MachineInstr) : Nat → Nat
  | 0 => 0
  | q + 1 => if isDebugAt B (q + 1) then goBack B q else q + 1

/-- RegPressureTracker::init: record the position (skipping forward over
debug values), zero the pressure vectors, reset the result and clear the
live sets. -/
def initT (m : Machine) (B : List MachineInstr) (requireIntervals : Bool)
    (pos : Nat) : Tracker :=
  { requireIntervals := requireIntervals
    currPos := fwdSkip B pos
    currSetPressure := List.replicate m.numPressureSets 0
    p := { RPResult.reset with maxSetPressure := List.replicate m.numPressureSets 0 }
    livePhysRegs := []
    liveVirtRegs := [] }

/-- recede: kill liveness at one physical live def (erase and decrease if
present, otherwise live-out discovery). -/
def recedePhysDefOne (m : Machine) (ts : Tracker) (r : Nat) : Tracker :=
  if ts.livePhysRegs.contains r then
    decPhysOne m { ts with livePhysRegs := ts.livePhysRegs.erase r } r
  else discoverPhysLiveOut m ts r

/-- recede: kill liveness at one virtual live def. -/
def recedeVirtDefOne (m : Machine) (ts : Tracker) (r : Nat) : Tracker :=
  if ts.liveVirtRegs.contains r then
    decVirtOne m { ts with liveVirtRegs := ts.liveVirtRegs.erase r } r
  else discoverVirtLiveOut m ts r

/-- recede: generate liveness at one physical use. -/
def recedePhysUseOne (m : Machine) (ts : Tracker) (r : Nat) : Tracker :=
  if !aliasIn m r ts.livePhysRegs then
    let ts2 := incPhysOne m ts r
    { ts2 with livePhysRegs := ts2.livePhysRegs ++ [r] }
  else ts

/-- recede: generate liveness at one virtual use; with the interval
oracle, a use not killed at this slot is first discovered as live-out. -/
def recedeVirtUseOne (m : Machine) (slot : Nat) (ts : Tracker) (r : Nat) :
    Tracker :=
  if !ts.liveVirtRegs.contains r then
    let ts1 := if ts.requireIntervals && !m.killedAt r slot
               then discoverVirtLiveOut m ts r else ts
    let ts2 := incVirtOne m ts1 r
    { ts2 with liveVirtRegs := ts2.liveVirtRegs ++ [r] }
  else ts

/-- advance: kill liveness at one physical use (single-use assumption:
when an alias is live, decrease and erase; otherwise live-in discovery). -/
def advancePhysUseOne (m : Machine) (ts : Tracker) (r : Nat) : Tracker :=
  if !aliasIn m r ts.livePhysRegs then discoverPhysLiveIn m ts r
  else
    decPhysOne m { ts with livePhysRegs := ts.livePhysRegs.erase r } r

/-- advance: process one virtual use, translated exactly as written: with
intervals, only a killed use acts (erase-and-decrease, or live-in
discovery when absent); without intervals an absent use is discovered and
the pressure increased, with no insertion into the live set. -/
def advanceVirtUseOne (m : Machine) (slot : Nat) (ts : Tracker) (r : Nat) :
    Tracker :=
  if ts.requireIntervals then
    if m.killedAt r slot then
      if ts.liveVirtRegs.contains r then
        decVirtOne m { ts with liveVirtRegs := ts.liveVirtRegs.erase r } r
      else discoverVirtLiveIn m ts r
    else ts
  else
    if !ts.liveVirtRegs.contains r then
      incVirtOne m (discoverVirtLiveIn m ts r) r
    else ts

/-- advance: generate liveness at one physical def. -/
def advancePhysDefOne (m : Machine) (ts : Tracker) (r : Nat) : Tracker :=
  if !aliasIn m r ts.livePhysRegs then
    let ts2 := incPhysOne m ts r
    { ts2 with livePhysRegs := ts2.livePhysRegs ++ [r] }
  else ts

/-- advance: generate liveness at one virtual def (insert-if-absent, and
increase on success). -/
def advanceVirtDefOne (m : Machine) (ts : Tracker) (r : Nat) : Tracker :=
  if !ts.liveVirtRegs.contains r then
    incVirtOne m { ts with liveVirtRegs := ts.liveVirtRegs ++ [r] } r
  else ts

/-- The dead-def bump shared by both drivers: increase then decrease the
pressure for physical and virtual dead defs, in the source's order. -/
def deadDefBump (m : Machine) (ts : Tracker) (po vo : RegOps) : Tracker :=
  decVirtList m
    (decPhysList m
      (incVirtList m
        (incPhysList m ts po.deadDefs) vo.deadDefs) po.deadDefs) vo.deadDefs

/-- The operand-processing core of recede, applied to the collected
operand records of the new instruction: dead-def bump, then defs, then
uses. -/
def recedeStep (m : Machine) (slot : Nat) (ts : Tracker) (po vo : RegOps) :
    Tracker :=
  chainL (recedeVirtUseOne m slot)
    (chainL (recedePhysUseOne m)
      (chainL (recedeVirtDefOne m)
        (chainL (recedePhysDefOne m)
          (deadDefBump m ts po vo) po.defs) vo.defs) po.uses) vo.uses

/-- The operand-processing core of advance: uses, then defs, then the
dead-def bump. -/
def advanceStep (m : Machine) (slot : Nat) (ts : Tracker) (po vo : RegOps) :
    Tracker :=
  deadDefBump m
    (chainL (advanceVirtDefOne m)
      (chainL (advancePhysDefOne m)
        (chainL (advanceVirtUseOne m slot)
          (chainL (advancePhysUseOne m) ts po.uses) vo.uses) po.defs) vo.defs)
    po vo

/-- The preamble of recede after the begin-of-block check: close the
bottom if still open, then (region variant) reopen a closed top at the
current position. -/
def recedeOpen (m : Machine) (L : Nat) (ts : Tracker) : Tracker :=
  let ts1 := if !isBottomClosed ts then closeBottom m L ts else ts
  if !ts1.requireIntervals && isTopClosed ts1
  then { ts1 with p := openTopR ts1.p ts1.currPos } else ts1

/-- The preamble of advance after the end-of-block check: close the top
if still open, then reopen a closed bottom at the current mark (slot
index in the interval variant, position in the region variant). -/
def advanceOpen (m : Machine) (ts : Tracker) : Tracker :=
  let ts1 := if !isTopClosed ts then closeTop m ts else ts
  if isBottomClosed ts1 then
    (if ts1.requireIntervals
     then { ts1 with p := openBottomI ts1.p (m.slotOf ts1.currPos) }
     else { ts1 with p := openBottomR ts1.p ts1.currPos })
  else ts1

/-- RegPressureTracker::recede, one call.  Returns the new tracker state
and the Bool result. -/
def recede (m : Machine) (B : List MachineInstr) (ts : Tracker) :
    Tracker × Bool :=
  if ts.currPos = 0 then (closeRegion m B.length ts, false)
  else
    let ts2 := recedeOpen m B.length ts
    let newPos := goBack B (ts2.currPos - 1)
    let ts3 := { ts2 with currPos := newPos }
    if isDebugAt B newPos then (closeRegion m B.length ts3, false)
    else
      let slot := m.slotOf newPos
      let ts4 := if ts3.requireIntervals && isTopClosed ts3
                 then { ts3 with p := openTopI ts3.p slot } else ts3
      let ops := collectOperands m (instrAt B newPos)
      (recedeStep m slot ts4 ops.1 ops.2, true)

/-- RegPressureTracker::advance, one call.  (The slot index is read off
the cursor after the preamble, whose operations leave the cursor in
place, so this agrees with the source computing it just after closing
the top.) -/
def advance (m : Machine) (B : List MachineInstr) (ts : Tracker) :
    Tracker × Bool :=
  if ts.currPos = B.length then (closeRegion m B.length ts, false)
  else
    let ts2 := advanceOpen m ts
    let slot := m.slotOf ts2.currPos
    let ops := collectOperands m (instrAt B ts2.currPos)
    let ts3 := advanceStep m slot ts2 ops.1 ops.2
    ({ ts3 with currPos := fwdSkip B (ts3.currPos + 1) }, true)

/-- The public traversal operations, for quantifying over call sequences. -/
inductive TOp
  | stepBack
  | stepFwd
  | cTop
  | cBot
  | cReg
deriving DecidableEq

def applyOp (m : Machine) (B : List MachineInstr) (ts : Tracker) : TOp → Tracker
  | .stepBack => (recede m B ts).1
  | .stepFwd => (advance m B ts).1
  | .cTop => closeTop m ts
  | .cBot => closeBottom m B.length ts
  | .cReg => closeRegion m B.length ts

def applyOps (m : Machine) (B : List MachineInstr) (ts : Tracker) :
    List TOp → Tracker
  | [] => ts
  | op :: ops => applyOps m B (applyOp m B ts op) ops

/-- Repeated recede-or-advance steps, recorded as Bools (true = advance),
for the pressure-sum invariant. -/
def runRA (m : Machine) (B : List MachineInstr) (ts : Tracker) :
    List Bool → Tracker
  | [] => ts
  | b :: bs => runRA m B (if b then (advance m B ts).1 else (recede m B ts).1) bs

/-- Drive advance until it returns false (fuel-bounded; a full traversal
of a block of length n needs at most n + 1 calls). -/
def advanceAll (m : Machine) (B : List MachineInstr) : Nat → Tracker → Tracker
  | 0, ts => ts
  | fuel + 1, ts =>
      let r := advance m B ts
      if r.2 then advanceAll m B fuel r.1 else r.1

/-- Drive recede until it returns false. -/
def recedeAll (m : Machine) (B : List MachineInstr) : Nat → Tracker → Tracker
  | 0, ts => ts
  | fuel + 1, ts =>
      let r := recede m B ts
      if r.2 then recedeAll m B fuel r.1 else r.1

/-! ## Contribution sums and concrete test fixtures -/

/-- Weight contributed by one physical register to pressure set p. -/
def physContrib (m : Machine) (r p : Nat) : Nat :=
  if p ∈ m.classPressureSets (m.minimalPhysRegClass r)
  then m.classWeight (m.minimalPhysRegClass r) else 0

/-- Weight contributed by one virtual register to pressure set p. -/
def virtContrib (m : Machine) (r p : Nat) : Nat :=
  if p ∈ m.classPressureSets (m.mriRegClass r)
  then m.classWeight (m.mriRegClass r) else 0

/-- The spec's pressure formula: the sum, over every live register, of
the class weight gated on membership of p in the class's pressure sets. -/
def sumContrib (m : Machine) (lp lv : List Nat) (p : Nat) : Nat :=
  (lp.map (fun r => physContrib m r p)).sum +
    (lv.map (fun r => virtContrib m r p)).sum

/-- A register operand that only reads. -/
def useOp (r : Nat) : MachineOperand :=
  { isReg := true, reg := r, readsReg := true, isDef := false, isDead := false }

/-- A register operand that only writes (not dead). -/
def defOp (r : Nat) : MachineOperand :=
  { isReg := true, reg := r, readsReg := false, isDef := true, isDead := false }

/-- A dead-def register operand. -/
def deadDefOp (r : Nat) : MachineOperand :=
  { isReg := true, reg := r, readsReg := false, isDef := true, isDead := true }

/-- Fixture: one pressure set; register 5 is virtual with class 0 of
weight 1 contributing to set 0; no aliasing; the interval oracle reports
no kill anywhere (register 5 is killed below the region). -/
def mVirt : Machine :=
  { numPressureSets := 1
    isVirtualReg := fun r => r == 5
    classWeight := fun _ => 1
    classPressureSets := fun _ => [0]
    minimalPhysRegClass := fun _ => 0
    mriRegClass := fun _ => 0
    overlaps := fun r => [r]
    isAllocatable := fun _ => true
    killedAt := fun _ _ => false
    slotOf := fun i => i
    mbbEndIdx := 100 }

/-- Fixture block: a single instruction that uses register 5. -/
def bOneUse : List MachineInstr := [{ isDebugValue := false, operands := [useOp 5] }]

/-- Fixture: all registers physical and allocatable; registers 1 and 2
alias each other (subregister pair), every class has weight 1 on set 0. -/
def mAlias : Machine :=
  { mVirt with
      isVirtualReg := fun _ => false
      overlaps := fun r => if r == 1 then [1, 2] else if r == 2 then [2, 1] else [r] }

/-- Fixture block: def of physical register 1 then a use of its alias 2. -/
def bDefUseAlias : List MachineInstr :=
  [ { isDebugValue := false, operands := [defOp 1] },
    { isDebugValue := false, operands := [useOp 2] } ]

/-- Fixture block: a single def of physical register 1. -/
def bDef1 : List MachineInstr := [{ isDebugValue := false, operands := [defOp 1] }]

/-- Fixture block: a debug value followed by a use of register 5. -/
def bDbgUse : List MachineInstr :=
  [ { isDebugValue := true, operands := [useOp 9] },
    { isDebugValue := false, operands := [useOp 5] } ]

/-- An empty interval-mode tracker state over one pressure set. -/
def tsEmptyI : Tracker :=
  { requireIntervals := true, currPos := 0, currSetPressure := [0]
    p := { maxSetPressure := [0], liveInRegs := [], liveOutRegs := []
           topIdx := none, bottomIdx := none, topPos := none, bottomPos := none }
    livePhysRegs := [], liveVirtRegs := [] }

/-! ## C1 -/

/-- C1: the advance and recede traversals of the same region are NOT
equivalent.  Over the one-instruction region that uses virtual register 5,
whose live interval is not killed inside the region, the full advance
traversal reports max pressure [0] with empty live-in and live-out lists,
while the full recede traversal of the same region reports max pressure
[1] with live-in [5] and live-out [5]: advance ignores a use that is not
killed at its slot, recede discovers it as a live-out. -/
theorem C1_advance_recede_disagree :
    (let A := advanceAll mVirt bOneUse 3 (initT mVirt bOneUse true 0)
     let R := recedeAll mVirt bOneUse 3 (initT mVirt bOneUse true 1)
     A.p.maxSetPressure = [0] ∧ A.p.liveInRegs = [] ∧ A.p.liveOutRegs = [] ∧
       R.p.maxSetPressure = [1] ∧ R.p.liveInRegs = [5] ∧ R.p.liveOutRegs = [5]) := by
  decide

/-! ## C2: counterexample -/

/-- C2 fails as stated.  First conjunct: a non-interval advance over a
use of an absent virtual register increases the pressure counter without
inserting the register into the live set, so the counter (1) differs from
the live-set weighted sum (0).  Second conjunct: in interval mode, an
advance over a use of physical register 2 while its alias 1 is live
decreases the counter but fails to erase (erase is by identity), leaving
counter 0 against a live-set sum of 1. -/
theorem C2_pressure_sum_counterexample :
    (let a := (advance mVirt bOneUse (initT mVirt bOneUse false 0)).1
     ¬ a.currSetPressure.getD 0 0 = sumContrib mVirt a.livePhysRegs a.liveVirtRegs 0) ∧
    (let b := (advance mAlias bDefUseAlias
                ((advance mAlias bDefUseAlias (initT mAlias bDefUseAlias true 0)).1)).1
     ¬ b.currSetPressure.getD 0 0 = sumContrib mAlias b.livePhysRegs b.liveVirtRegs 0) := by
  decide

/-! ## C3 -/

/-- C3 fails as stated: the alias test in discoverPhysLiveIn and
discoverPhysLiveOut is inverted.  A physical register discovered with NO
alias in the result list is dropped (list and max unchanged), while a
register whose alias IS already listed gets appended, so an alias pair
[2, 1] ends up in the live-out list.  At driver level, receding over the
single def of register 1 leaves the live-out list empty and the max
pressure at zero, where the spec requires live-out [1] and max [1]. -/
theorem C3_phys_discovery_inverted :
    (discoverPhysLiveOut mAlias tsEmptyI 1).p.liveOutRegs = [] ∧
    (discoverPhysLiveOut mAlias tsEmptyI 1).p.maxSetPressure = [0] ∧
    (discoverPhysLiveIn mAlias tsEmptyI 1).p.liveInRegs = [] ∧
    (let tsB : Tracker := { tsEmptyI with p := { tsEmptyI.p with liveOutRegs := [2] } }
     (discoverPhysLiveOut mAlias tsB 1).p.liveOutRegs = [2, 1] ∧
       (discoverPhysLiveOut mAlias tsB 1).p.maxSetPressure = [1] ∧
       aliasIn mAlias 1 [2] = true) ∧
    (let r := recedeAll mAlias bDef1 2 (initT mAlias bDef1 true 1)
     r.p.liveOutRegs = [] ∧ r.p.maxSetPressure = [0]) := by
  decide

/-! ## C5 -/

/-- A closed-bottom interval result with distinct live-in and live-out
lists, for exercising openBottom directly. -/
def P5 : RPResult :=
  { maxSetPressure := [3], liveInRegs := [7], liveOutRegs := [9]
    topIdx := some 0, bottomIdx := some 2, topPos := none, bottomPos := none }

/-- C5 fails as stated: openBottom clears the live-in list, not the
live-out list.  With bottom boundary 2 and mark 5 (bottom not at-or-after
the mark, so the claim agrees it must open), the interval openBottom
clears liveInRegs and keeps liveOutRegs; with bottom boundary equal to
the mark the claim requires a no-op but the code still opens; the region
variant likewise clears liveInRegs. -/
theorem C5_openBottom_clears_wrong_list :
    (openBottomI P5 5).liveInRegs = [] ∧
    (openBottomI P5 5).liveOutRegs = [9] ∧
    (openBottomI P5 5).bottomIdx = none ∧
    (let Pe : RPResult := { P5 with bottomIdx := some 5 }
     (openBottomI Pe 5).bottomIdx = none ∧ (openBottomI Pe 5).liveInRegs = []) ∧
    (let Pr : RPResult := { P5 with bottomIdx := none, bottomPos := some 4 }
     (openBottomR Pr 4).liveInRegs = [] ∧ (openBottomR Pr 4).liveOutRegs = [9] ∧
       (openBottomR Pr 4).bottomPos = none) := by
  decide

/-! ## C6 -/

/-- A region-variant tracker whose top and bottom boundaries both hold
valid marks (positions 0 and 3) and whose phys live set is nonempty. -/
def tsC6 : Tracker :=
  { requireIntervals := false, currPos := 2, currSetPressure := [1]
    p := { maxSetPressure := [1], liveInRegs := [], liveOutRegs := []
           topIdx := none, bottomIdx := none, topPos := some 0, bottomPos := some 3 }
    livePhysRegs := [4], liveVirtRegs := [] }

/-- C6 fails as stated: the region-variant isTopClosed and isBottomClosed
compare against the default iterator with the equality inverted, so a
tracker whose boundaries both hold valid marks tests fully OPEN, and
closeRegion then takes the "no region boundary" branch whose assertion
fires because the live sets are nonempty. -/
theorem C6_closeRegion_asserts_on_closed_region :
    isTopClosed tsC6 = false ∧ isBottomClosed tsC6 = false ∧
      closeRegionAssertFires tsC6 = true := by
  decide

/-! ## C9 -/

/-- C9: in advance with the interval oracle configured, a virtual use
whose interval is not killed at the current slot leaves the tracker state
entirely unchanged: the single-use processing is the identity, and the
whole use-processing chain is independent of that use. -/
theorem C9_nonkilled_virt_use_inert (m : Machine) (slot : Nat) (ts : Tracker)
    (r : Nat) (rest : List Nat) (hreq : ts.requireIntervals = true)
    (hk : m.killedAt r slot = false) :
    advanceVirtUseOne m slot ts r = ts ∧
      chainL (advanceVirtUseOne m slot) ts (r :: rest) =
        chainL (advanceVirtUseOne m slot) ts rest := by
  have h1 : advanceVirtUseOne m slot ts r = ts := by
    unfold advanceVirtUseOne
    rw [hreq, hk]
    simp
  exact ⟨h1, by rw [chainL, h1]⟩

/-- Witness for C9 at a concrete interval-mode state and register. -/
theorem C9_witness :
    advanceVirtUseOne mVirt 0 tsEmptyI 5 = tsEmptyI ∧
      chainL (advanceVirtUseOne mVirt 0) tsEmptyI [5] =
        chainL (advanceVirtUseOne mVirt 0) tsEmptyI [] :=
  C9_nonkilled_virt_use_inert mVirt 0 tsEmptyI 5 [] rfl rfl

/-! ## C10 -/

theorem firstNonDebug_le_length (l : List MachineInstr) : firstNonDebug l ≤ l.length := by
  induction l with
  | nil => simp [firstNonDebug]
  | cons I rest ih =>
      by_cases h : I.isDebugValue
      · simpa [firstNonDebug, h] using ih
      · simp [firstNonDebug, h]

theorem firstNonDebug_lands (l : List MachineInstr)
    (h : firstNonDebug l < l.length) :
    (l.getD (firstNonDebug l) dummyInstr).isDebugValue = false := by
  induction l with
  | nil => simp [firstNonDebug] at h
  | cons I rest ih =>
      by_cases hd : I.isDebugValue
      · have h2 : firstNonDebug rest < rest.length := by
          simpa [firstNonDebug, hd, Nat.succ_lt_succ_iff] using h
        simpa [firstNonDebug, hd] using ih h2
      · simp [firstNonDebug, hd]

theorem firstNonDebug_before (l : List MachineInstr) (j : Nat)
    (h : j < firstNonDebug l) :
    (l.getD j dummyInstr).isDebugValue = true := by
  induction l generalizing j with
  | nil => simp [firstNonDebug] at h
  | cons I rest ih =>
      by_cases hd : I.isDebugValue
      · cases j with
        | zero => simpa using hd
        | succ j =>
            have h2 : j < firstNonDebug rest := by
              simpa [firstNonDebug, hd, Nat.succ_lt_succ_iff] using h
            simpa using ih j h2
      · simp [firstNonDebug, hd] at h

theorem getD_drop (l : List MachineInstr) (n k : Nat) :
    (l.drop n).getD k dummyInstr = l.getD (n + k) dummyInstr := by
  induction l generalizing n with
  | nil => simp
  | cons x xs ih =>
      cases n with
      | zero => simp
      | succ n =>
          have : n + 1 + k = (n + k) + 1 := by omega
          simp [this, ih n]

/-- C10: init lands the cursor at the first non-debug index at or after
the given position (capped at block length): the cursor moves only
forward, stays within the block, never rests on a debug-value inside the
block, and every skipped index held a debug value.  Hence the first
recede or advance never begins at a debug-value instruction inside the
block. -/
theorem C10_init_skips_debug (m : Machine) (B : List MachineInstr)
    (riv : Bool) (pos : Nat) (h : pos ≤ B.length) :
    pos ≤ (initT m B riv pos).currPos ∧
      (initT m B riv pos).currPos ≤ B.length ∧
      ((initT m B riv pos).currPos < B.length →
        isDebugAt B ((initT m B riv pos).currPos) = false) ∧
      (∀ j, pos ≤ j → j < (initT m B riv pos).currPos → isDebugAt B j = true) := by
  have hc : (initT m B riv pos).currPos = pos + firstNonDebug (B.drop pos) := rfl
  have hlen : (B.drop pos).length = B.length - pos := by simp
  refine ⟨by omega, ?_, ?_, ?_⟩
  · have := firstNonDebug_le_length (B.drop pos)
    omega
  · intro hlt
    have h2 : firstNonDebug (B.drop pos) < (B.drop pos).length := by omega
    have := firstNonDebug_lands (B.drop pos) h2
    rw [getD_drop] at this
    rw [hc]
    exact this
  · intro j hj1 hj2
    rw [hc] at hj2
    have h2 : j - pos < firstNonDebug (B.drop pos) := by omega
    have := firstNonDebug_before (B.drop pos) (j - pos) h2
    rw [getD_drop] at this
    have hpj : pos + (j - pos) = j := by omega
    rw [hpj] at this
    exact this

/-- Witness for C10 on a block whose first instruction is a debug value:
starting at position 0, init skips to index 1 and the skipped index 0 was
a debug value. -/
theorem C10_witness :
    (0 : Nat) ≤ (initT mVirt bDbgUse true 0).currPos ∧
      (initT mVirt bDbgUse true 0).currPos ≤ bDbgUse.length ∧
      ((initT mVirt bDbgUse true 0).currPos < bDbgUse.length →
        isDebugAt bDbgUse ((initT mVirt bDbgUse true 0).currPos) = false) ∧
      (∀ j, 0 ≤ j → j < (initT mVirt bDbgUse true 0).currPos →
        isDebugAt bDbgUse j = true) :=
  C10_init_skips_debug mVirt bDbgUse true 0 (by decide)

/-! ## Pointwise lemmas about the pressure-vector primitives -/

theorem getD_set (l : List Nat) (q v p : Nat) :
    (l.set q v).getD p 0 = if q = p ∧ q < l.length then v else l.getD p 0 := by
  induction l generalizing q p with
  | nil => simp
  | cons x xs ih =>
      cases q with
      | zero => cases p <;> simp
      | succ q =>
          cases p with
          | zero => simp
          | succ p =>
              simpa [Nat.succ_lt_succ_iff] using ih q p

theorem incSets_len (w : Nat) (qs : List Nat) (c mx : List Nat) :
    (incSets w qs (c, mx)).1.length = c.length ∧
      (incSets w qs (c, mx)).2.length = mx.length := by
  induction qs generalizing c mx with
  | nil => simp [incSets]
  | cons q qs ih =>
      simp only [incSets]
      refine ⟨?_, ?_⟩
      · rw [(ih _ _).1]; simp
      · rw [(ih _ _).2]; split <;> simp

theorem decSets_len (w : Nat) (qs : List Nat) (c : List Nat) :
    (decSets w qs c).length = c.length := by
  induction qs generalizing c with
  | nil => simp [decSets]
  | cons q qs ih =>
      simp only [decSets]
      rw [ih]; simp

theorem incSets_fst_ge (w : Nat) (qs : List Nat) (c mx : List Nat) (p : Nat) :
    c.getD p 0 ≤ (incSets w qs (c, mx)).1.getD p 0 := by
  induction qs generalizing c mx with
  | nil => simp [incSets]
  | cons q qs ih =>
      simp only [incSets]
      refine le_trans ?_ (ih _ _)
      rw [getD_set]
      split
      · next h => obtain ⟨rfl, -⟩ := h; exact Nat.le_add_right _ _
      · exact le_refl _

theorem incSets_snd_ge (w : Nat) (qs : List Nat) (c mx : List Nat) (p : Nat) :
    mx.getD p 0 ≤ (incSets w qs (c, mx)).2.getD p 0 := by
  induction qs generalizing c mx with
  | nil => simp [incSets]
  | cons q qs ih =>
      simp only [incSets]
      refine le_trans ?_ (ih _ _)
      split
      · next hlt =>
          rw [getD_set]
          split
          · next h => obtain ⟨rfl, -⟩ := h; exact le_of_lt hlt
          · exact le_refl _
      · exact le_refl _

theorem incSets_dom (w : Nat) (qs : List Nat) (c mx : List Nat)
    (hlen : c.length = mx.length)
    (hdom : ∀ p, c.getD p 0 ≤ mx.getD p 0) (p : Nat) :
    (incSets w qs (c, mx)).1.getD p 0 ≤ (incSets w qs (c, mx)).2.getD p 0 := by
  induction qs generalizing c mx with
  | nil => simpa [incSets] using hdom p
  | cons q qs ih =>
      simp only [incSets]
      apply ih
      · simp only [List.length_set]
        split <;> simp [hlen]
      · intro j
        by_cases hqj : q = j
        · subst hqj
          by_cases hql : q < c.length
          · have hc2 : (c.set q (c.getD q 0 + w)).getD q 0 = c.getD q 0 + w := by
              rw [getD_set]; simp [hql]
            split
            · next hlt =>
                have hql2 : q < mx.length := hlen ▸ hql
                rw [getD_set]
                simp [hql2, hc2]
            · next hge => rw [hc2]; rw [hc2] at hge; omega
          · have hc2 : (c.set q (c.getD q 0 + w)).getD q 0 = c.getD q 0 := by
              rw [getD_set]; simp [hql]
            have hql2 : ¬ q < mx.length := by rw [← hlen]; exact hql
            split
            · next hlt =>
                rw [hc2, getD_set]
                simp only [hql2, and_false, if_false]
                exact hdom q
            · next hge => rw [hc2]; exact hdom q
        · have hc2 : (c.set q (c.getD q 0 + w)).getD j 0 = c.getD j 0 := by
            rw [getD_set]; simp [hqj]
          split
          · next hlt =>
              rw [hc2, getD_set]
              simp only [hqj, false_and, if_false]
              exact hdom j
          · next hge => rw [hc2]; exact hdom j

theorem decSets_le (w : Nat) (qs : List Nat) (c : List Nat) (p : Nat) :
    (decSets w qs c).getD p 0 ≤ c.getD p 0 := by
  induction qs generalizing c with
  | nil => simp [decSets]
  | cons q qs ih =>
      simp only [decSets]
      refine le_trans (ih _) ?_
      rw [getD_set]
      split
      · next h => obtain ⟨rfl, -⟩ := h; exact Nat.sub_le _ _
      · exact le_refl _

theorem incSets_fst_getD (w : Nat) (qs : List Nat) (c mx : List Nat) (p : Nat)
    (hb : ∀ q ∈ qs, q < c.length) :
    (incSets w qs (c, mx)).1.getD p 0 = c.getD p 0 + w * qs.count p := by
  induction qs generalizing c mx with
  | nil => simp [incSets]
  | cons q qs ih =>
      simp only [incSets]
      have hql : q < c.length := hb q (by simp)
      have hb2 : ∀ r ∈ qs, r < (c.set q (c.getD q 0 + w)).length := by
        intro r hr
        simpa using hb r (by simp [hr])
      rw [ih _ _ hb2]
      rw [getD_set]
      by_cases hqp : q = p
      · subst hqp
        simp [hql, List.count_cons]
        ring
      · simp [hqp, List.count_cons, Ne.symm hqp]

theorem decSets_getD (w : Nat) (qs : List Nat) (c : List Nat) (p : Nat)
    (hb : ∀ q ∈ qs, q < c.length) :
    (decSets w qs c).getD p 0 = c.getD p 0 - w * qs.count p := by
  induction qs generalizing c with
  | nil => simp [decSets]
  | cons q qs ih =>
      simp only [decSets]
      have hql : q < c.length := hb q (by simp)
      have hb2 : ∀ r ∈ qs, r < (c.set q (c.getD q 0 - w)).length := by
        intro r hr
        simpa using hb r (by simp [hr])
      rw [ih _ hb2]
      rw [getD_set]
      by_cases hqp : q = p
      · subst hqp
        simp only [hql, and_true, if_pos rfl, List.count_cons, beq_self_eq_true,
          if_pos rfl, if_true]
        rw [Nat.sub_sub]
        congr 1
        ring
      · simp [hqp, List.count_cons, Ne.symm hqp]

/-! ## Max-pressure dominance and monotonicity (C7 machinery) -/

/-- The current and max vectors have equal length and max dominates curr
pointwise. -/
def MaxDom (ts : Tracker) : Prop :=
  ts.currSetPressure.length = ts.p.maxSetPressure.length ∧
    ∀ p, ts.currSetPressure.getD p 0 ≤ ts.p.maxSetPressure.getD p 0

/-- Pointwise ordering of the max vectors of two tracker states. -/
def MaxGe (t1 t2 : Tracker) : Prop :=
  ∀ p, t1.p.maxSetPressure.getD p 0 ≤ t2.p.maxSetPressure.getD p 0

theorem MaxGe_refl (t : Tracker) : MaxGe t t := fun _ => le_refl _

theorem MaxGe_trans {a b c : Tracker} (h1 : MaxGe a b) (h2 : MaxGe b c) :
    MaxGe a c := fun p => le_trans (h1 p) (h2 p)

theorem dom_ite (c : Prop) [Decidable c] {a b : Tracker} (ha : MaxDom a)
    (hb : MaxDom b) : MaxDom (if c then a else b) := by
  split <;> assumption

theorem maxGe_ite (ts : Tracker) (c : Prop) [Decidable c] {a b : Tracker}
    (ha : MaxGe ts a) (hb : MaxGe ts b) : MaxGe ts (if c then a else b) := by
  split <;> assumption

theorem openTopI_max (P : RPResult) (x : Nat) :
    (openTopI P x).maxSetPressure = P.maxSetPressure := by
  unfold openTopI; split <;> rfl

theorem openTopR_max (P : RPResult) (x : Nat) :
    (openTopR P x).maxSetPressure = P.maxSetPressure := by
  unfold openTopR; split <;> rfl

theorem openBottomI_max (P : RPResult) (x : Nat) :
    (openBottomI P x).maxSetPressure = P.maxSetPressure := by
  unfold openBottomI; split <;> rfl

theorem openBottomR_max (P : RPResult) (x : Nat) :
    (openBottomR P x).maxSetPressure = P.maxSetPressure := by
  unfold openBottomR; split <;> rfl

theorem increase_max_ge (m : Machine) (rc : Nat) (P : RPResult) (p : Nat) :
    P.maxSetPressure.getD p 0 ≤ (RPResult.increase m rc P).maxSetPressure.getD p 0 :=
  incSets_fst_ge _ _ _ _ p

theorem increase_max_len (m : Machine) (rc : Nat) (P : RPResult) :
    (RPResult.increase m rc P).maxSetPressure.length = P.maxSetPressure.length :=
  (incSets_len _ _ _ _).1

theorem closeTop_curr (m : Machine) (ts : Tracker) :
    (closeTop m ts).currSetPressure = ts.currSetPressure := rfl

theorem closeTop_max (m : Machine) (ts : Tracker) :
    (closeTop m ts).p.maxSetPressure = ts.p.maxSetPressure := by
  unfold closeTop; dsimp only; split <;> rfl

theorem closeBottom_curr (m : Machine) (L : Nat) (ts : Tracker) :
    (closeBottom m L ts).currSetPressure = ts.currSetPressure := rfl

theorem closeBottom_max (m : Machine) (L : Nat) (ts : Tracker) :
    (closeBottom m L ts).p.maxSetPressure = ts.p.maxSetPressure := by
  unfold closeBottom; dsimp only; split <;> rfl

theorem closeRegion_curr (m : Machine) (L : Nat) (ts : Tracker) :
    (closeRegion m L ts).currSetPressure = ts.currSetPressure := by
  unfold closeRegion
  split
  · rfl
  · split
    · exact closeBottom_curr _ _ _
    · split
      · exact closeTop_curr _ _
      · rfl

theorem closeRegion_max (m : Machine) (L : Nat) (ts : Tracker) :
    (closeRegion m L ts).p.maxSetPressure = ts.p.maxSetPressure := by
  unfold closeRegion
  split
  · rfl
  · split
    · exact closeBottom_max _ _ _
    · split
      · exact closeTop_max _ _
      · rfl

theorem dom_setP (ts : Tracker) (P2 : RPResult)
    (hmax : P2.maxSetPressure = ts.p.maxSetPressure) (h : MaxDom ts) :
    MaxDom { ts with p := P2 } := by
  simpa [MaxDom, hmax] using h

theorem maxGe_setP (ts : Tracker) (P2 : RPResult)
    (hmax : P2.maxSetPressure = ts.p.maxSetPressure) :
    MaxGe ts { ts with p := P2 } := fun p => by rw [show ({ ts with p := P2 } : Tracker).p.maxSetPressure = P2.maxSetPressure from rfl, hmax]

theorem dom_closeTop (m : Machine) (ts : Tracker) (h : MaxDom ts) :
    MaxDom (closeTop m ts) := by
  simpa [MaxDom, closeTop_curr, closeTop_max] using h

theorem dom_closeBottom (m : Machine) (L : Nat) (ts : Tracker) (h : MaxDom ts) :
    MaxDom (closeBottom m L ts) := by
  simpa [MaxDom, closeBottom_curr, closeBottom_max] using h

theorem dom_closeRegion (m : Machine) (L : Nat) (ts : Tracker) (h : MaxDom ts) :
    MaxDom (closeRegion m L ts) := by
  simpa [MaxDom, closeRegion_curr, closeRegion_max] using h

theorem maxGe_closeTop (m : Machine) (ts : Tracker) : MaxGe ts (closeTop m ts) :=
  fun p => by rw [closeTop_max]

theorem maxGe_closeBottom (m : Machine) (L : Nat) (ts : Tracker) :
    MaxGe ts (closeBottom m L ts) := fun p => by rw [closeBottom_max]

theorem maxGe_closeRegion (m : Machine) (L : Nat) (ts : Tracker) :
    MaxGe ts (closeRegion m L ts) := fun p => by rw [closeRegion_max]

theorem dom_incPhysOne (m : Machine) (ts : Tracker) (r : Nat) (h : MaxDom ts) :
    MaxDom (incPhysOne m ts r) := by
  obtain ⟨hlen, hdom⟩ := h
  refine ⟨?_, ?_⟩
  · show (incSets _ _ _).1.length = (incSets _ _ _).2.length
    rw [(incSets_len _ _ _ _).1, (incSets_len _ _ _ _).2, hlen]
  · intro p
    exact incSets_dom _ _ _ _ hlen hdom p

theorem dom_incVirtOne (m : Machine) (ts : Tracker) (r : Nat) (h : MaxDom ts) :
    MaxDom (incVirtOne m ts r) := by
  obtain ⟨hlen, hdom⟩ := h
  refine ⟨?_, ?_⟩
  · show (incSets _ _ _).1.length = (incSets _ _ _).2.length
    rw [(incSets_len _ _ _ _).1, (incSets_len _ _ _ _).2, hlen]
  · intro p
    exact incSets_dom _ _ _ _ hlen hdom p

theorem maxGe_incPhysOne (m : Machine) (ts : Tracker) (r : Nat) :
    MaxGe ts (incPhysOne m ts r) := fun p => incSets_snd_ge _ _ _ _ p

theorem maxGe_incVirtOne (m : Machine) (ts : Tracker) (r : Nat) :
    MaxGe ts (incVirtOne m ts r) := fun p => incSets_snd_ge _ _ _ _ p

theorem dom_decPhysOne (m : Machine) (ts : Tracker) (r : Nat) (h : MaxDom ts) :
    MaxDom (decPhysOne m ts r) := by
  obtain ⟨hlen, hdom⟩ := h
  refine ⟨?_, ?_⟩
  · show (decSets _ _ _).length = _
    rw [decSets_len, hlen]
    rfl
  · intro p
    exact le_trans (decSets_le _ _ _ p) (hdom p)

theorem dom_decVirtOne (m : Machine) (ts : Tracker) (r : Nat) (h : MaxDom ts) :
    MaxDom (decVirtOne m ts r) := by
  obtain ⟨hlen, hdom⟩ := h
  refine ⟨?_, ?_⟩
  · show (decSets _ _ _).length = _
    rw [decSets_len, hlen]
    rfl
  · intro p
    exact le_trans (decSets_le _ _ _ p) (hdom p)

theorem maxGe_decPhysOne (m : Machine) (ts : Tracker) (r : Nat) :
    MaxGe ts (decPhysOne m ts r) := fun _ => le_refl _

theorem maxGe_decVirtOne (m : Machine) (ts : Tracker) (r : Nat) :
    MaxGe ts (decVirtOne m ts r) := fun _ => le_refl _

theorem dom_discoverPhysLiveIn (m : Machine) (ts : Tracker) (r : Nat)
    (h : MaxDom ts) : MaxDom (discoverPhysLiveIn m ts r) := by
  unfold discoverPhysLiveIn
  split
  · exact h
  · obtain ⟨hlen, hdom⟩ := h
    refine ⟨?_, ?_⟩
    · show _ = (RPResult.increase _ _ _).maxSetPressure.length
      rw [increase_max_len]; exact hlen
    · intro p
      exact le_trans (hdom p) (increase_max_ge _ _ _ p)

theorem dom_discoverPhysLiveOut (m : Machine) (ts : Tracker) (r : Nat)
    (h : MaxDom ts) : MaxDom (discoverPhysLiveOut m ts r) := by
  unfold discoverPhysLiveOut
  split
  · exact h
  · obtain ⟨hlen, hdom⟩ := h
    refine ⟨?_, ?_⟩
    · show _ = (RPResult.increase _ _ _).maxSetPressure.length
      rw [increase_max_len]; exact hlen
    · intro p
      exact le_trans (hdom p) (increase_max_ge _ _ _ p)

theorem dom_discoverVirtLiveIn (m : Machine) (ts : Tracker) (r : Nat)
    (h : MaxDom ts) : MaxDom (discoverVirtLiveIn m ts r) := by
  unfold discoverVirtLiveIn
  split
  · exact h
  · obtain ⟨hlen, hdom⟩ := h
    refine ⟨?_, ?_⟩
    · show _ = (RPResult.increase _ _ _).maxSetPressure.length
      rw [increase_max_len]; exact hlen
    · intro p
      exact le_trans (hdom p) (increase_max_ge _ _ _ p)

theorem dom_discoverVirtLiveOut (m : Machine) (ts : Tracker) (r : Nat)
    (h : MaxDom ts) : MaxDom (discoverVirtLiveOut m ts r) := by
  unfold discoverVirtLiveOut
  split
  · exact h
  · obtain ⟨hlen, hdom⟩ := h
    refine ⟨?_, ?_⟩
    · show _ = (RPResult.increase _ _ _).maxSetPressure.length
      rw [increase_max_len]; exact hlen
    · intro p
      exact le_trans (hdom p) (increase_max_ge _ _ _ p)

theorem maxGe_discoverPhysLiveIn (m : Machine) (ts : Tracker) (r : Nat) :
    MaxGe ts (discoverPhysLiveIn m ts r) := by
  unfold discoverPhysLiveIn
  split
  · exact MaxGe_refl ts
  · exact fun p => increase_max_ge _ _ _ p

theorem maxGe_discoverPhysLiveOut (m : Machine) (ts : Tracker) (r : Nat) :
    MaxGe ts (discoverPhysLiveOut m ts r) := by
  unfold discoverPhysLiveOut
  split
  · exact MaxGe_refl ts
  · exact fun p => increase_max_ge _ _ _ p

theorem maxGe_discoverVirtLiveIn (m : Machine) (ts : Tracker) (r : Nat) :
    MaxGe ts (discoverVirtLiveIn m ts r) := by
  unfold discoverVirtLiveIn
  split
  · exact MaxGe_refl ts
  · exact fun p => increase_max_ge _ _ _ p

theorem maxGe_discoverVirtLiveOut (m : Machine) (ts : Tracker) (r : Nat) :
    MaxGe ts (discoverVirtLiveOut m ts r) := by
  unfold discoverVirtLiveOut
  split
  · exact MaxGe_refl ts
  · exact fun p => increase_max_ge _ _ _ p

theorem chainL_pres {f : Tracker → Nat → Tracker} {P : Tracker → Prop}
    (hf : ∀ ts r, P ts → P (f ts r)) :
    ∀ (rs : List Nat) (ts : Tracker), P ts → P (chainL f ts rs) := by
  intro rs
  induction rs with
  | nil => intro ts h; exact h
  | cons r rs ih => intro ts h; exact ih (f ts r) (hf ts r h)

theorem chainL_maxGe {f : Tracker → Nat → Tracker}
    (hf : ∀ ts r, MaxGe ts (f ts r)) :
    ∀ (rs : List Nat) (ts : Tracker), MaxGe ts (chainL f ts rs) := by
  intro rs
  induction rs with
  | nil => intro ts; exact MaxGe_refl ts
  | cons r rs ih => intro ts; exact MaxGe_trans (hf ts r) (ih (f ts r))

theorem chainL_maxGe_from {f : Tracker → Nat → Tracker}
    (hf : ∀ ts r, MaxGe ts (f ts r)) (rs : List Nat) {a t : Tracker}
    (h : MaxGe a t) : MaxGe a (chainL f t rs) :=
  MaxGe_trans h (chainL_maxGe hf rs t)

theorem dom_recedePhysDefOne (m : Machine) (ts : Tracker) (r : Nat)
    (h : MaxDom ts) : MaxDom (recedePhysDefOne m ts r) := by
  unfold recedePhysDefOne
  split
  · exact dom_decPhysOne m { ts with livePhysRegs := ts.livePhysRegs.erase r } r h
  · exact dom_discoverPhysLiveOut m ts r h

theorem dom_recedeVirtDefOne (m : Machine) (ts : Tracker) (r : Nat)
    (h : MaxDom ts) : MaxDom (recedeVirtDefOne m ts r) := by
  unfold recedeVirtDefOne
  split
  · exact dom_decVirtOne m { ts with liveVirtRegs := ts.liveVirtRegs.erase r } r h
  · exact dom_discoverVirtLiveOut m ts r h

theorem dom_recedePhysUseOne (m : Machine) (ts : Tracker) (r : Nat)
    (h : MaxDom ts) : MaxDom (recedePhysUseOne m ts r) := by
  unfold recedePhysUseOne
  split
  · exact dom_incPhysOne m ts r h
  · exact h

theorem dom_recedeVirtUseOne (m : Machine) (slot : Nat) (ts : Tracker) (r : Nat)
    (h : MaxDom ts) : MaxDom (recedeVirtUseOne m slot ts r) := by
  unfold recedeVirtUseOne
  split
  · exact dom_incVirtOne m
      (if ts.requireIntervals && !m.killedAt r slot
       then discoverVirtLiveOut m ts r else ts) r
      (dom_ite _ (dom_discoverVirtLiveOut m ts r h) h)
  · exact h

theorem dom_advancePhysUseOne (m : Machine) (ts : Tracker) (r : Nat)
    (h : MaxDom ts) : MaxDom (advancePhysUseOne m ts r) := by
  unfold advancePhysUseOne
  split
  · exact dom_discoverPhysLiveIn m ts r h
  · exact dom_decPhysOne m { ts with livePhysRegs := ts.livePhysRegs.erase r } r h

theorem dom_advanceVirtUseOne (m : Machine) (slot : Nat) (ts : Tracker) (r : Nat)
    (h : MaxDom ts) : MaxDom (advanceVirtUseOne m slot ts r) := by
  unfold advanceVirtUseOne
  split
  · split
    · split
      · exact dom_decVirtOne m { ts with liveVirtRegs := ts.liveVirtRegs.erase r } r h
      · exact dom_discoverVirtLiveIn m ts r h
    · exact h
  · split
    · exact dom_incVirtOne m (discoverVirtLiveIn m ts r) r
        (dom_discoverVirtLiveIn m ts r h)
    · exact h

theorem dom_advancePhysDefOne (m : Machine) (ts : Tracker) (r : Nat)
    (h : MaxDom ts) : MaxDom (advancePhysDefOne m ts r) := by
  unfold advancePhysDefOne
  split
  · exact dom_incPhysOne m ts r h
  · exact h

theorem dom_advanceVirtDefOne (m : Machine) (ts : Tracker) (r : Nat)
    (h : MaxDom ts) : MaxDom (advanceVirtDefOne m ts r) := by
  unfold advanceVirtDefOne
  split
  · exact dom_incVirtOne m { ts with liveVirtRegs := ts.liveVirtRegs ++ [r] } r h
  · exact h

theorem maxGe_recedePhysDefOne (m : Machine) (ts : Tracker) (r : Nat) :
    MaxGe ts (recedePhysDefOne m ts r) := by
  unfold recedePhysDefOne
  split
  · exact maxGe_decPhysOne m { ts with livePhysRegs := ts.livePhysRegs.erase r } r
  · exact maxGe_discoverPhysLiveOut m ts r

theorem maxGe_recedeVirtDefOne (m : Machine) (ts : Tracker) (r : Nat) :
    MaxGe ts (recedeVirtDefOne m ts r) := by
  unfold recedeVirtDefOne
  split
  · exact maxGe_decVirtOne m { ts with liveVirtRegs := ts.liveVirtRegs.erase r } r
  · exact maxGe_discoverVirtLiveOut m ts r

theorem maxGe_recedePhysUseOne (m : Machine) (ts : Tracker) (r : Nat) :
    MaxGe ts (recedePhysUseOne m ts r) := by
  unfold recedePhysUseOne
  split
  · exact maxGe_incPhysOne m ts r
  · exact MaxGe_refl ts

theorem maxGe_recedeVirtUseOne (m : Machine) (slot : Nat) (ts : Tracker) (r : Nat) :
    MaxGe ts (recedeVirtUseOne m slot ts r) := by
  unfold recedeVirtUseOne
  split
  · exact MaxGe_trans
      (maxGe_ite ts _ (maxGe_discoverVirtLiveOut m ts r) (MaxGe_refl ts))
      (maxGe_incVirtOne m
        (if ts.requireIntervals && !m.killedAt r slot
         then discoverVirtLiveOut m ts r else ts) r)
  · exact MaxGe_refl ts

theorem maxGe_advancePhysUseOne (m : Machine) (ts : Tracker) (r : Nat) :
    MaxGe ts (advancePhysUseOne m ts r) := by
  unfold advancePhysUseOne
  split
  · exact maxGe_discoverPhysLiveIn m ts r
  · exact maxGe_decPhysOne m { ts with livePhysRegs := ts.livePhysRegs.erase r } r

theorem maxGe_advanceVirtUseOne (m : Machine) (slot : Nat) (ts : Tracker) (r : Nat) :
    MaxGe ts (advanceVirtUseOne m slot ts r) := by
  unfold advanceVirtUseOne
  split
  · split
    · split
      · exact maxGe_decVirtOne m { ts with liveVirtRegs := ts.liveVirtRegs.erase r } r
      · exact maxGe_discoverVirtLiveIn m ts r
    · exact MaxGe_refl ts
  · split
    · exact MaxGe_trans (maxGe_discoverVirtLiveIn m ts r)
        (maxGe_incVirtOne m (discoverVirtLiveIn m ts r) r)
    · exact MaxGe_refl ts

theorem maxGe_advancePhysDefOne (m : Machine) (ts : Tracker) (r : Nat) :
    MaxGe ts (advancePhysDefOne m ts r) := by
  unfold advancePhysDefOne
  split
  · exact maxGe_incPhysOne m ts r
  · exact MaxGe_refl ts

theorem maxGe_advanceVirtDefOne (m : Machine) (ts : Tracker) (r : Nat) :
    MaxGe ts (advanceVirtDefOne m ts r) := by
  unfold advanceVirtDefOne
  split
  · exact maxGe_incVirtOne m { ts with liveVirtRegs := ts.liveVirtRegs ++ [r] } r
  · exact MaxGe_refl ts

theorem dom_deadDefBump (m : Machine) (ts : Tracker) (po vo : RegOps)
    (h : MaxDom ts) : MaxDom (deadDefBump m ts po vo) := by
  unfold deadDefBump decVirtList decPhysList incVirtList incPhysList
  exact chainL_pres (dom_decVirtOne m) _ _
    (chainL_pres (dom_decPhysOne m) _ _
      (chainL_pres (dom_incVirtOne m) _ _
        (chainL_pres (dom_incPhysOne m) _ _ h)))

theorem maxGe_deadDefBump (m : Machine) (ts : Tracker) (po vo : RegOps) :
    MaxGe ts (deadDefBump m ts po vo) := by
  unfold deadDefBump decVirtList decPhysList incVirtList incPhysList
  exact chainL_maxGe_from (maxGe_decVirtOne m) _
    (chainL_maxGe_from (maxGe_decPhysOne m) _
      (chainL_maxGe_from (maxGe_incVirtOne m) _
        (chainL_maxGe_from (maxGe_incPhysOne m) _ (MaxGe_refl ts))))

theorem dom_recedeStep (m : Machine) (slot : Nat) (ts : Tracker) (po vo : RegOps)
    (h : MaxDom ts) : MaxDom (recedeStep m slot ts po vo) := by
  unfold recedeStep
  exact chainL_pres (dom_recedeVirtUseOne m slot) _ _
    (chainL_pres (dom_recedePhysUseOne m) _ _
      (chainL_pres (dom_recedeVirtDefOne m) _ _
        (chainL_pres (dom_recedePhysDefOne m) _ _
          (dom_deadDefBump m ts po vo h))))

theorem maxGe_recedeStep (m : Machine) (slot : Nat) (ts : Tracker) (po vo : RegOps) :
    MaxGe ts (recedeStep m slot ts po vo) := by
  unfold recedeStep
  exact chainL_maxGe_from (maxGe_recedeVirtUseOne m slot) _
    (chainL_maxGe_from (maxGe_recedePhysUseOne m) _
      (chainL_maxGe_from (maxGe_recedeVirtDefOne m) _
        (chainL_maxGe_from (maxGe_recedePhysDefOne m) _
          (maxGe_deadDefBump m ts po vo))))

theorem dom_advanceStep (m : Machine) (slot : Nat) (ts : Tracker) (po vo : RegOps)
    (h : MaxDom ts) : MaxDom (advanceStep m slot ts po vo) := by
  unfold advanceStep
  exact dom_deadDefBump m _ po vo
    (chainL_pres (dom_advanceVirtDefOne m) _ _
      (chainL_pres (dom_advancePhysDefOne m) _ _
        (chainL_pres (dom_advanceVirtUseOne m slot) _ _
          (chainL_pres (dom_advancePhysUseOne m) _ _ h))))

theorem maxGe_advanceStep (m : Machine) (slot : Nat) (ts : Tracker) (po vo : RegOps) :
    MaxGe ts (advanceStep m slot ts po vo) := by
  unfold advanceStep
  refine MaxGe_trans ?_ (maxGe_deadDefBump m _ po vo)
  exact chainL_maxGe_from (maxGe_advanceVirtDefOne m) _
    (chainL_maxGe_from (maxGe_advancePhysDefOne m) _
      (chainL_maxGe_from (maxGe_advanceVirtUseOne m slot) _
        (chainL_maxGe_from (maxGe_advancePhysUseOne m) _ (MaxGe_refl ts))))

theorem dom_recedeOpen (m : Machine) (L : Nat) (ts : Tracker) (h : MaxDom ts) :
    MaxDom (recedeOpen m L ts) := by
  unfold recedeOpen
  dsimp only
  have h1 : MaxDom (if !isBottomClosed ts then closeBottom m L ts else ts) :=
    dom_ite _ (dom_closeBottom _ _ _ h) h
  exact dom_ite _ (dom_setP _ _ (openTopR_max _ _) h1) h1

theorem maxGe_recedeOpen (m : Machine) (L : Nat) (ts : Tracker) :
    MaxGe ts (recedeOpen m L ts) := by
  unfold recedeOpen
  dsimp only
  have g1 : MaxGe ts (if !isBottomClosed ts then closeBottom m L ts else ts) :=
    maxGe_ite ts _ (maxGe_closeBottom m L ts) (MaxGe_refl ts)
  exact MaxGe_trans g1 (maxGe_ite _ _ (maxGe_setP _ _ (openTopR_max _ _)) (MaxGe_refl _))

theorem dom_advanceOpen (m : Machine) (ts : Tracker) (h : MaxDom ts) :
    MaxDom (advanceOpen m ts) := by
  unfold advanceOpen
  dsimp only
  have h1 : MaxDom (if !isTopClosed ts then closeTop m ts else ts) :=
    dom_ite _ (dom_closeTop _ _ h) h
  refine dom_ite _ ?_ h1
  exact dom_ite _ (dom_setP _ _ (openBottomI_max _ _) h1)
    (dom_setP _ _ (openBottomR_max _ _) h1)

theorem maxGe_advanceOpen (m : Machine) (ts : Tracker) :
    MaxGe ts (advanceOpen m ts) := by
  unfold advanceOpen
  dsimp only
  have g1 : MaxGe ts (if !isTopClosed ts then closeTop m ts else ts) :=
    maxGe_ite ts _ (maxGe_closeTop m ts) (MaxGe_refl ts)
  refine MaxGe_trans g1 (maxGe_ite _ _ ?_ (MaxGe_refl _))
  exact maxGe_ite _ _ (maxGe_setP _ _ (openBottomI_max _ _))
    (maxGe_setP _ _ (openBottomR_max _ _))

theorem dom_recede (m : Machine) (B : List MachineInstr) (ts : Tracker)
    (h : MaxDom ts) : MaxDom (recede m B ts).1 := by
  unfold recede
  split
  · exact dom_closeRegion _ _ _ h
  · dsimp only
    have h2 : MaxDom (recedeOpen m B.length ts) := dom_recedeOpen m B.length ts h
    split
    · exact dom_closeRegion m B.length _ h2
    · exact dom_recedeStep m _ _ _ _
        (dom_ite _ (dom_setP _ _ (openTopI_max _ _) h2) h2)

theorem maxGe_recede (m : Machine) (B : List MachineInstr) (ts : Tracker) :
    MaxGe ts (recede m B ts).1 := by
  unfold recede
  split
  · exact maxGe_closeRegion m B.length ts
  · dsimp only
    have g2 : MaxGe ts (recedeOpen m B.length ts) := maxGe_recedeOpen m B.length ts
    split
    · exact MaxGe_trans g2 (maxGe_closeRegion m B.length
        { recedeOpen m B.length ts with
          currPos := goBack B ((recedeOpen m B.length ts).currPos - 1) })
    · refine MaxGe_trans g2 (MaxGe_trans ?_ (maxGe_recedeStep m _ _ _ _))
      exact maxGe_ite
        { recedeOpen m B.length ts with
          currPos := goBack B ((recedeOpen m B.length ts).currPos - 1) } _
        (maxGe_setP _ _ (openTopI_max _ _)) (MaxGe_refl _)

theorem dom_advance (m : Machine) (B : List MachineInstr) (ts : Tracker)
    (h : MaxDom ts) : MaxDom (advance m B ts).1 := by
  unfold advance
  split
  · exact dom_closeRegion _ _ _ h
  · dsimp only
    exact dom_advanceStep m _ _ _ _ (dom_advanceOpen m ts h)

theorem maxGe_advance (m : Machine) (B : List MachineInstr) (ts : Tracker) :
    MaxGe ts (advance m B ts).1 := by
  unfold advance
  split
  · exact maxGe_closeRegion m B.length ts
  · dsimp only
    exact MaxGe_trans (maxGe_advanceOpen m ts) (maxGe_advanceStep m _ _ _ _)

theorem dom_applyOp (m : Machine) (B : List MachineInstr) (ts : Tracker)
    (op : TOp) (h : MaxDom ts) : MaxDom (applyOp m B ts op) := by
  cases op with
  | stepBack => exact dom_recede _ _ _ h
  | stepFwd => exact dom_advance _ _ _ h
  | cTop => exact dom_closeTop _ _ h
  | cBot => exact dom_closeBottom _ _ _ h
  | cReg => exact dom_closeRegion _ _ _ h

theorem maxGe_applyOp (m : Machine) (B : List MachineInstr) (ts : Tracker)
    (op : TOp) : MaxGe ts (applyOp m B ts op) := by
  cases op with
  | stepBack => exact maxGe_recede _ _ _
  | stepFwd => exact maxGe_advance _ _ _
  | cTop => exact maxGe_closeTop _ _
  | cBot => exact maxGe_closeBottom _ _ _
  | cReg => exact maxGe_closeRegion _ _ _

theorem getD_replicate_zero (n p : Nat) :
    (List.replicate n (0 : Nat)).getD p 0 = 0 := by
  induction n generalizing p with
  | zero => simp
  | succ n ih =>
      cases p with
      | zero => simp [List.replicate]
      | succ p =>
          rw [List.replicate]
          exact ih p

theorem dom_initT (m : Machine) (B : List MachineInstr) (riv : Bool) (pos : Nat) :
    MaxDom (initT m B riv pos) := by
  refine ⟨rfl, ?_⟩
  intro p
  show (List.replicate m.numPressureSets 0).getD p 0 ≤
    (List.replicate m.numPressureSets 0).getD p 0
  exact le_refl _

theorem dom_applyOps (m : Machine) (B : List MachineInstr) (ts : Tracker)
    (ops : List TOp) (h : MaxDom ts) : MaxDom (applyOps m B ts ops) := by
  induction ops generalizing ts with
  | nil => exact h
  | cons op ops ih => exact ih _ (dom_applyOp m B ts op h)

/-- C7: over any sequence of tracker operations starting from init
(recede, advance, closeTop, closeBottom, closeRegion in any
interleaving), each pressure set's max counter never decreases at the
next operation, and the max vector dominates the current vector at every
reachable state. -/
theorem C7_max_monotone_dominates (m : Machine) (B : List MachineInstr)
    (riv : Bool) (pos : Nat) (ops : List TOp) (op : TOp) (p : Nat) :
    (applyOps m B (initT m B riv pos) ops).p.maxSetPressure.getD p 0 ≤
        (applyOp m B (applyOps m B (initT m B riv pos) ops) op).p.maxSetPressure.getD p 0 ∧
      (applyOps m B (initT m B riv pos) ops).currSetPressure.getD p 0 ≤
        (applyOps m B (initT m B riv pos) ops).p.maxSetPressure.getD p 0 ∧
      (applyOp m B (applyOps m B (initT m B riv pos) ops) op).currSetPressure.getD p 0 ≤
        (applyOp m B (applyOps m B (initT m B riv pos) ops) op).p.maxSetPressure.getD p 0 := by
  have hdom := dom_applyOps m B (initT m B riv pos) ops (dom_initT m B riv pos)
  refine ⟨maxGe_applyOp m B _ op p, hdom.2 p, ?_⟩
  exact (dom_applyOp m B _ op hdom).2 p

/-! ## Dead-def net-zero machinery (C4) -/

/-- A tracker state with the max vector blanked, for stating that two
states agree on everything except the high-water mark. -/
def stripMax (ts : Tracker) : Tracker :=
  { ts with p := { ts.p with maxSetPressure := [] } }

/-- The machine's per-class pressure-set lists stay below the number of
pressure sets. -/
def PBounded (m : Machine) : Prop :=
  ∀ c q, q ∈ m.classPressureSets c → q < m.numPressureSets

/-- Total weight contributed to pressure set p by a list of physical
registers, with multiplicity of the pressure-set lists. -/
def physAmt (m : Machine) (rs : List Nat) (p : Nat) : Nat :=
  (rs.map (fun r => m.classWeight (m.minimalPhysRegClass r) *
    (m.classPressureSets (m.minimalPhysRegClass r)).count p)).sum

/-- Total weight contributed to pressure set p by a list of virtual
registers. -/
def virtAmt (m : Machine) (rs : List Nat) (p : Nat) : Nat :=
  (rs.map (fun r => m.classWeight (m.mriRegClass r) *
    (m.classPressureSets (m.mriRegClass r)).count p)).sum

theorem incSets_fst_indep (w : Nat) (qs : List Nat) (c mx mx' : List Nat) :
    (incSets w qs (c, mx)).1 = (incSets w qs (c, mx')).1 := by
  induction qs generalizing c mx mx' with
  | nil => rfl
  | cons q qs ih =>
      simp only [incSets]
      exact ih _ _ _

theorem incSets_fst_mono (w : Nat) (qs : List Nat) (c1 c2 mx1 mx2 : List Nat)
    (hlen : c1.length = c2.length) (hle : ∀ p, c1.getD p 0 ≤ c2.getD p 0) (p : Nat) :
    (incSets w qs (c1, mx1)).1.getD p 0 ≤ (incSets w qs (c2, mx2)).1.getD p 0 := by
  induction qs generalizing c1 c2 mx1 mx2 with
  | nil => exact hle p
  | cons q qs ih =>
      simp only [incSets]
      apply ih
      · simp [hlen]
      · intro j
        rw [getD_set, getD_set]
        by_cases hqj : q = j
        · subst hqj
          by_cases hql : q < c1.length
          · simp only [hql, hlen ▸ hql, and_true, if_pos rfl]
            exact Nat.add_le_add_right (hle q) w
          · simp only [hql, (hlen ▸ hql : ¬ q < c2.length), and_false, if_false]
            exact hle q
        · simp only [hqj, false_and, if_false]
          exact hle j

theorem incSets_snd_mono (w : Nat) (qs : List Nat) (c mx1 mx2 : List Nat)
    (hlen : mx1.length = mx2.length) (hle : ∀ p, mx1.getD p 0 ≤ mx2.getD p 0) (p : Nat) :
    (incSets w qs (c, mx1)).2.getD p 0 ≤ (incSets w qs (c, mx2)).2.getD p 0 := by
  induction qs generalizing c mx1 mx2 with
  | nil => exact hle p
  | cons q qs ih =>
      simp only [incSets]
      apply ih
      · split <;> split <;> simp [hlen]
      · intro j
        by_cases hqj : q = j
        · subst hqj
          have hq := hle q
          by_cases hql : q < mx1.length
          · have hql2 : q < mx2.length := hlen ▸ hql
            have e1 : (mx1.set q ((c.set q (c.getD q 0 + w)).getD q 0)).getD q 0 =
                (c.set q (c.getD q 0 + w)).getD q 0 := by
              rw [getD_set]; simp [hql]
            have e2 : (mx2.set q ((c.set q (c.getD q 0 + w)).getD q 0)).getD q 0 =
                (c.set q (c.getD q 0 + w)).getD q 0 := by
              rw [getD_set]; simp [hql2]
            split
            · next h1 =>
                split
                · next h2 => rw [e1, e2]
                · next h2 => rw [e1]; omega
            · next h1 =>
                split
                · next h2 => rw [e2]; omega
                · next h2 => exact hq
          · have hql2 : ¬ q < mx2.length := hlen ▸ hql
            have e1 : (mx1.set q ((c.set q (c.getD q 0 + w)).getD q 0)).getD q 0 =
                mx1.getD q 0 := by
              rw [getD_set]; simp [hql]
            have e2 : (mx2.set q ((c.set q (c.getD q 0 + w)).getD q 0)).getD q 0 =
                mx2.getD q 0 := by
              rw [getD_set]; simp [hql2]
            split
            · next h1 =>
                split
                · next h2 => rw [e1, e2]; exact hq
                · next h2 => rw [e1]; exact hq
            · next h1 =>
                split
                · next h2 => rw [e2]; exact hq
                · next h2 => exact hq
        · have e1 : ∀ v, (mx1.set q v).getD j 0 = mx1.getD j 0 := by
            intro v; rw [getD_set]; simp [hqj]
          have e2 : ∀ v, (mx2.set q v).getD j 0 = mx2.getD j 0 := by
            intro v; rw [getD_set]; simp [hqj]
          split
          · next h1 =>
              split
              · next h2 => rw [e1, e2]; exact hle j
              · next h2 => rw [e1]; exact hle j
          · next h1 =>
              split
              · next h2 => rw [e2]; exact hle j
              · next h2 => exact hle j

theorem list_ext_getD (l1 l2 : List Nat) (hlen : l1.length = l2.length)
    (h : ∀ p, l1.getD p 0 = l2.getD p 0) : l1 = l2 := by
  induction l1 generalizing l2 with
  | nil =>
      cases l2 with
      | nil => rfl
      | cons y ys => simp at hlen
  | cons x xs ih =>
      cases l2 with
      | nil => simp at hlen
      | cons y ys =>
          have h0 : x = y := by simpa using h 0
          have hrest : xs = ys :=
            ih ys (by simpa using hlen) (fun p => by simpa using h (p + 1))
          rw [h0, hrest]

/-- Two tracker states agree after stripping the max vector exactly when
every other component agrees. -/
theorem strip_eq_iff {t1 t2 : Tracker} : stripMax t1 = stripMax t2 ↔
    (t1.requireIntervals = t2.requireIntervals ∧ t1.currPos = t2.currPos ∧
     t1.currSetPressure = t2.currSetPressure ∧
     t1.p.liveInRegs = t2.p.liveInRegs ∧ t1.p.liveOutRegs = t2.p.liveOutRegs ∧
     t1.p.topIdx = t2.p.topIdx ∧ t1.p.bottomIdx = t2.p.bottomIdx ∧
     t1.p.topPos = t2.p.topPos ∧ t1.p.bottomPos = t2.p.bottomPos ∧
     t1.livePhysRegs = t2.livePhysRegs ∧ t1.liveVirtRegs = t2.liveVirtRegs) := by
  obtain ⟨f1, pos1, c1, ⟨mx1, li1, lo1, ti1, bi1, tp1, bp1⟩, lp1, lv1⟩ := t1
  obtain ⟨f2, pos2, c2, ⟨mx2, li2, lo2, ti2, bi2, tp2, bp2⟩, lp2, lv2⟩ := t2
  simp only [stripMax, Tracker.mk.injEq, RPResult.mk.injEq, true_and]
  tauto

/-- Two tracker states that agree on everything except the max vector,
whose max vectors have equal length, with the first dominating the
second pointwise. -/
def EqExMax (t1 t2 : Tracker) : Prop :=
  stripMax t1 = stripMax t2 ∧
    t1.p.maxSetPressure.length = t2.p.maxSetPressure.length ∧
    ∀ p, t2.p.maxSetPressure.getD p 0 ≤ t1.p.maxSetPressure.getD p 0

theorem chainL_exm {f : Tracker → Nat → Tracker}
    (hf : ∀ t1 t2 r, EqExMax t1 t2 → EqExMax (f t1 r) (f t2 r)) :
    ∀ (rs : List Nat) {t1 t2 : Tracker}, EqExMax t1 t2 →
      EqExMax (chainL f t1 rs) (chainL f t2 rs) := by
  intro rs
  induction rs with
  | nil => intro t1 t2 h; exact h
  | cons r rs ih => intro t1 t2 h; exact ih (hf t1 t2 r h)

theorem exm_decPhysOne (m : Machine) (r : Nat) {t1 t2 : Tracker}
    (h : EqExMax t1 t2) : EqExMax (decPhysOne m t1 r) (decPhysOne m t2 r) := by
  obtain ⟨hs, hlen, hle⟩ := h
  obtain ⟨hf, hpos, hcur, hli, hlo, hti, hbi, htp, hbp, hlp, hlv⟩ := strip_eq_iff.mp hs
  refine ⟨strip_eq_iff.mpr ⟨hf, hpos, ?_, hli, hlo, hti, hbi, htp, hbp, hlp, hlv⟩,
    hlen, hle⟩
  show decreaseSetPressure m (m.minimalPhysRegClass r) t1.currSetPressure =
    decreaseSetPressure m (m.minimalPhysRegClass r) t2.currSetPressure
  rw [hcur]

theorem exm_decVirtOne (m : Machine) (r : Nat) {t1 t2 : Tracker}
    (h : EqExMax t1 t2) : EqExMax (decVirtOne m t1 r) (decVirtOne m t2 r) := by
  obtain ⟨hs, hlen, hle⟩ := h
  obtain ⟨hf, hpos, hcur, hli, hlo, hti, hbi, htp, hbp, hlp, hlv⟩ := strip_eq_iff.mp hs
  refine ⟨strip_eq_iff.mpr ⟨hf, hpos, ?_, hli, hlo, hti, hbi, htp, hbp, hlp, hlv⟩,
    hlen, hle⟩
  show decreaseSetPressure m (m.mriRegClass r) t1.currSetPressure =
    decreaseSetPressure m (m.mriRegClass r) t2.currSetPressure
  rw [hcur]

theorem exm_incPhysOne (m : Machine) (r : Nat) {t1 t2 : Tracker}
    (h : EqExMax t1 t2) : EqExMax (incPhysOne m t1 r) (incPhysOne m t2 r) := by
  obtain ⟨hs, hlen, hle⟩ := h
  obtain ⟨hf, hpos, hcur, hli, hlo, hti, hbi, htp, hbp, hlp, hlv⟩ := strip_eq_iff.mp hs
  refine ⟨strip_eq_iff.mpr ⟨hf, hpos, ?_, hli, hlo, hti, hbi, htp, hbp, hlp, hlv⟩,
    ?_, ?_⟩
  · show (incSets (m.classWeight (m.minimalPhysRegClass r))
        (m.classPressureSets (m.minimalPhysRegClass r))
        (t1.currSetPressure, t1.p.maxSetPressure)).1 =
      (incSets (m.classWeight (m.minimalPhysRegClass r))
        (m.classPressureSets (m.minimalPhysRegClass r))
        (t2.currSetPressure, t2.p.maxSetPressure)).1
    rw [incSets_fst_indep _ _ _ _ t2.p.maxSetPressure, hcur]
  · show (incSets _ _ _).2.length = (incSets _ _ _).2.length
    rw [(incSets_len _ _ _ _).2, (incSets_len _ _ _ _).2, hlen]
  · intro p
    show (incSets _ _ (t2.currSetPressure, t2.p.maxSetPressure)).2.getD p 0 ≤
      (incSets _ _ (t1.currSetPressure, t1.p.maxSetPressure)).2.getD p 0
    rw [hcur]
    exact incSets_snd_mono _ _ _ _ _ hlen.symm hle p

theorem exm_incVirtOne (m : Machine) (r : Nat) {t1 t2 : Tracker}
    (h : EqExMax t1 t2) : EqExMax (incVirtOne m t1 r) (incVirtOne m t2 r) := by
  obtain ⟨hs, hlen, hle⟩ := h
  obtain ⟨hf, hpos, hcur, hli, hlo, hti, hbi, htp, hbp, hlp, hlv⟩ := strip_eq_iff.mp hs
  refine ⟨strip_eq_iff.mpr ⟨hf, hpos, ?_, hli, hlo, hti, hbi, htp, hbp, hlp, hlv⟩,
    ?_, ?_⟩
  · show (incSets (m.classWeight (m.mriRegClass r))
        (m.classPressureSets (m.mriRegClass r))
        (t1.currSetPressure, t1.p.maxSetPressure)).1 =
      (incSets (m.classWeight (m.mriRegClass r))
        (m.classPressureSets (m.mriRegClass r))
        (t2.currSetPressure, t2.p.maxSetPressure)).1
    rw [incSets_fst_indep _ _ _ _ t2.p.maxSetPressure, hcur]
  · show (incSets _ _ _).2.length = (incSets _ _ _).2.length
    rw [(incSets_len _ _ _ _).2, (incSets_len _ _ _ _).2, hlen]
  · intro p
    show (incSets _ _ (t2.currSetPressure, t2.p.maxSetPressure)).2.getD p 0 ≤
      (incSets _ _ (t1.currSetPressure, t1.p.maxSetPressure)).2.getD p 0
    rw [hcur]
    exact incSets_snd_mono _ _ _ _ _ hlen.symm hle p

theorem exm_discoverPhysLiveOut (m : Machine) (r : Nat) {t1 t2 : Tracker}
    (h : EqExMax t1 t2) :
    EqExMax (discoverPhysLiveOut m t1 r) (discoverPhysLiveOut m t2 r) := by
  obtain ⟨hs, hlen, hle⟩ := h
  obtain ⟨hf, hpos, hcur, hli, hlo, hti, hbi, htp, hbp, hlp, hlv⟩ := strip_eq_iff.mp hs
  unfold discoverPhysLiveOut
  rw [hlo]
  split
  · exact ⟨hs, hlen, hle⟩
  · refine ⟨strip_eq_iff.mpr ⟨hf, hpos, hcur, hli, rfl, hti, hbi, htp, hbp, hlp, hlv⟩,
      ?_, ?_⟩
    · show (incSets _ _ _).1.length = (incSets _ _ _).1.length
      rw [(incSets_len _ _ _ _).1, (incSets_len _ _ _ _).1, hlen]
    · intro p
      show (incSets _ _ (t2.p.maxSetPressure, t2.p.maxSetPressure)).1.getD p 0 ≤
        (incSets _ _ (t1.p.maxSetPressure, t1.p.maxSetPressure)).1.getD p 0
      exact incSets_fst_mono _ _ _ _ _ _ hlen.symm hle p

theorem exm_discoverVirtLiveOut (m : Machine) (r : Nat) {t1 t2 : Tracker}
    (h : EqExMax t1 t2) :
    EqExMax (discoverVirtLiveOut m t1 r) (discoverVirtLiveOut m t2 r) := by
  obtain ⟨hs, hlen, hle⟩ := h
  obtain ⟨hf, hpos, hcur, hli, hlo, hti, hbi, htp, hbp, hlp, hlv⟩ := strip_eq_iff.mp hs
  unfold discoverVirtLiveOut
  rw [hlo]
  split
  · exact ⟨hs, hlen, hle⟩
  · refine ⟨strip_eq_iff.mpr ⟨hf, hpos, hcur, hli, rfl, hti, hbi, htp, hbp, hlp, hlv⟩,
      ?_, ?_⟩
    · show (incSets _ _ _).1.length = (incSets _ _ _).1.length
      rw [(incSets_len _ _ _ _).1, (incSets_len _ _ _ _).1, hlen]
    · intro p
      show (incSets _ _ (t2.p.maxSetPressure, t2.p.maxSetPressure)).1.getD p 0 ≤
        (incSets _ _ (t1.p.maxSetPressure, t1.p.maxSetPressure)).1.getD p 0
      exact incSets_fst_mono _ _ _ _ _ _ hlen.symm hle p

theorem exm_setLivePhys {t1 t2 : Tracker} (h : EqExMax t1 t2) {L1 L2 : List Nat}
    (hL : L1 = L2) :
    EqExMax { t1 with livePhysRegs := L1 } { t2 with livePhysRegs := L2 } := by
  obtain ⟨hs, hlen, hle⟩ := h
  obtain ⟨hf, hpos, hcur, hli, hlo, hti, hbi, htp, hbp, hlp, hlv⟩ := strip_eq_iff.mp hs
  exact ⟨strip_eq_iff.mpr ⟨hf, hpos, hcur, hli, hlo, hti, hbi, htp, hbp, hL, hlv⟩,
    hlen, hle⟩

theorem exm_setLiveVirt {t1 t2 : Tracker} (h : EqExMax t1 t2) {L1 L2 : List Nat}
    (hL : L1 = L2) :
    EqExMax { t1 with liveVirtRegs := L1 } { t2 with liveVirtRegs := L2 } := by
  obtain ⟨hs, hlen, hle⟩ := h
  obtain ⟨hf, hpos, hcur, hli, hlo, hti, hbi, htp, hbp, hlp, hlv⟩ := strip_eq_iff.mp hs
  exact ⟨strip_eq_iff.mpr ⟨hf, hpos, hcur, hli, hlo, hti, hbi, htp, hbp, hlp, hL⟩,
    hlen, hle⟩

theorem strip_flag {t1 t2 : Tracker} (hs : stripMax t1 = stripMax t2) :
    t1.requireIntervals = t2.requireIntervals := (strip_eq_iff.mp hs).1

theorem strip_curr {t1 t2 : Tracker} (hs : stripMax t1 = stripMax t2) :
    t1.currSetPressure = t2.currSetPressure := (strip_eq_iff.mp hs).2.2.1

theorem strip_livePhys {t1 t2 : Tracker} (hs : stripMax t1 = stripMax t2) :
    t1.livePhysRegs = t2.livePhysRegs :=
  (strip_eq_iff.mp hs).2.2.2.2.2.2.2.2.2.1

theorem strip_liveVirt {t1 t2 : Tracker} (hs : stripMax t1 = stripMax t2) :
    t1.liveVirtRegs = t2.liveVirtRegs :=
  (strip_eq_iff.mp hs).2.2.2.2.2.2.2.2.2.2

theorem exm_recedePhysDefOne (m : Machine) (r : Nat) {t1 t2 : Tracker}
    (h : EqExMax t1 t2) :
    EqExMax (recedePhysDefOne m t1 r) (recedePhysDefOne m t2 r) := by
  have hlp : t1.livePhysRegs = t2.livePhysRegs := strip_livePhys h.1
  unfold recedePhysDefOne
  rw [hlp]
  split
  · exact exm_decPhysOne m r (exm_setLivePhys h rfl)
  · exact exm_discoverPhysLiveOut m r h

theorem exm_recedeVirtDefOne (m : Machine) (r : Nat) {t1 t2 : Tracker}
    (h : EqExMax t1 t2) :
    EqExMax (recedeVirtDefOne m t1 r) (recedeVirtDefOne m t2 r) := by
  have hlv : t1.liveVirtRegs = t2.liveVirtRegs := strip_liveVirt h.1
  unfold recedeVirtDefOne
  rw [hlv]
  split
  · exact exm_decVirtOne m r (exm_setLiveVirt h rfl)
  · exact exm_discoverVirtLiveOut m r h

theorem exm_recedePhysUseOne (m : Machine) (r : Nat) {t1 t2 : Tracker}
    (h : EqExMax t1 t2) :
    EqExMax (recedePhysUseOne m t1 r) (recedePhysUseOne m t2 r) := by
  have hlp : t1.livePhysRegs = t2.livePhysRegs := strip_livePhys h.1
  unfold recedePhysUseOne
  rw [hlp]
  split
  · have h2 := exm_incPhysOne m r h
    exact exm_setLivePhys h2 (by rw [strip_livePhys h2.1])
  · exact h

theorem exm_recedeVirtUseOne (m : Machine) (slot : Nat) (r : Nat) {t1 t2 : Tracker}
    (h : EqExMax t1 t2) :
    EqExMax (recedeVirtUseOne m slot t1 r) (recedeVirtUseOne m slot t2 r) := by
  have hlv : t1.liveVirtRegs = t2.liveVirtRegs := strip_liveVirt h.1
  have hfl : t1.requireIntervals = t2.requireIntervals := strip_flag h.1
  unfold recedeVirtUseOne
  rw [hlv, hfl]
  split
  · have h1 : EqExMax
        (if t2.requireIntervals && !m.killedAt r slot
         then discoverVirtLiveOut m t1 r else t1)
        (if t2.requireIntervals && !m.killedAt r slot
         then discoverVirtLiveOut m t2 r else t2) := by
      split
      · exact exm_discoverVirtLiveOut m r h
      · exact h
    have h2 := exm_incVirtOne m r h1
    exact exm_setLiveVirt h2 (by rw [strip_liveVirt h2.1])
  · exact h

theorem stripMax_chainL (f : Tracker → Nat → Tracker)
    (hf : ∀ ts r, stripMax (f ts r) =
      { stripMax ts with currSetPressure := (f ts r).currSetPressure }) :
    ∀ (rs : List Nat) (ts : Tracker), stripMax (chainL f ts rs) =
      { stripMax ts with currSetPressure := (chainL f ts rs).currSetPressure } := by
  intro rs
  induction rs with
  | nil => intro ts; rfl
  | cons r rs ih =>
      intro ts
      show stripMax (chainL f (f ts r) rs) = _
      rw [ih (f ts r), hf ts r]
      rfl

theorem incPhysList_cons (m : Machine) (ts : Tracker) (r : Nat) (rs : List Nat) :
    incPhysList m ts (r :: rs) = incPhysList m (incPhysOne m ts r) rs := rfl

theorem incVirtList_cons (m : Machine) (ts : Tracker) (r : Nat) (rs : List Nat) :
    incVirtList m ts (r :: rs) = incVirtList m (incVirtOne m ts r) rs := rfl

theorem decPhysList_cons (m : Machine) (ts : Tracker) (r : Nat) (rs : List Nat) :
    decPhysList m ts (r :: rs) = decPhysList m (decPhysOne m ts r) rs := rfl

theorem decVirtList_cons (m : Machine) (ts : Tracker) (r : Nat) (rs : List Nat) :
    decVirtList m ts (r :: rs) = decVirtList m (decVirtOne m ts r) rs := rfl

theorem incPhysList_spec (m : Machine) (hb : PBounded m) (rs : List Nat) :
    ∀ ts : Tracker, ts.currSetPressure.length = m.numPressureSets →
      (incPhysList m ts rs).currSetPressure.length = m.numPressureSets ∧
      (incPhysList m ts rs).p.maxSetPressure.length = ts.p.maxSetPressure.length ∧
      ∀ p, (incPhysList m ts rs).currSetPressure.getD p 0 =
        ts.currSetPressure.getD p 0 + physAmt m rs p := by
  induction rs with
  | nil => intro ts hlen; exact ⟨hlen, rfl, fun p => by simp [physAmt, incPhysList, chainL]⟩
  | cons r rs ih =>
      intro ts hlen
      simp only [incPhysList_cons]
      have hb1 : ∀ q ∈ m.classPressureSets (m.minimalPhysRegClass r),
          q < ts.currSetPressure.length := by
        intro q hq; rw [hlen]; exact hb _ q hq
      have hone_len : (incPhysOne m ts r).currSetPressure.length = m.numPressureSets := by
        show (incSets _ _ _).1.length = _
        rw [(incSets_len _ _ _ _).1, hlen]
      have hone_max : (incPhysOne m ts r).p.maxSetPressure.length =
          ts.p.maxSetPressure.length := by
        show (incSets _ _ _).2.length = _
        rw [(incSets_len _ _ _ _).2]
      have hone_getD : ∀ p, (incPhysOne m ts r).currSetPressure.getD p 0 =
          ts.currSetPressure.getD p 0 +
            m.classWeight (m.minimalPhysRegClass r) *
              (m.classPressureSets (m.minimalPhysRegClass r)).count p := by
        intro p
        exact incSets_fst_getD _ _ _ _ p hb1
      obtain ⟨ha, hm, hg⟩ := ih (incPhysOne m ts r) hone_len
      refine ⟨ha, ?_, ?_⟩
      · rw [hm, hone_max]
      · intro p
        rw [hg p, hone_getD p]
        simp only [physAmt, List.map_cons, List.sum_cons]
        omega

theorem incVirtList_spec (m : Machine) (hb : PBounded m) (rs : List Nat) :
    ∀ ts : Tracker, ts.currSetPressure.length = m.numPressureSets →
      (incVirtList m ts rs).currSetPressure.length = m.numPressureSets ∧
      (incVirtList m ts rs).p.maxSetPressure.length = ts.p.maxSetPressure.length ∧
      ∀ p, (incVirtList m ts rs).currSetPressure.getD p 0 =
        ts.currSetPressure.getD p 0 + virtAmt m rs p := by
  induction rs with
  | nil => intro ts hlen; exact ⟨hlen, rfl, fun p => by simp [virtAmt, incVirtList, chainL]⟩
  | cons r rs ih =>
      intro ts hlen
      simp only [incVirtList_cons]
      have hb1 : ∀ q ∈ m.classPressureSets (m.mriRegClass r),
          q < ts.currSetPressure.length := by
        intro q hq; rw [hlen]; exact hb _ q hq
      have hone_len : (incVirtOne m ts r).currSetPressure.length = m.numPressureSets := by
        show (incSets _ _ _).1.length = _
        rw [(incSets_len _ _ _ _).1, hlen]
      have hone_max : (incVirtOne m ts r).p.maxSetPressure.length =
          ts.p.maxSetPressure.length := by
        show (incSets _ _ _).2.length = _
        rw [(incSets_len _ _ _ _).2]
      have hone_getD : ∀ p, (incVirtOne m ts r).currSetPressure.getD p 0 =
          ts.currSetPressure.getD p 0 +
            m.classWeight (m.mriRegClass r) *
              (m.classPressureSets (m.mriRegClass r)).count p := by
        intro p
        exact incSets_fst_getD _ _ _ _ p hb1
      obtain ⟨ha, hm, hg⟩ := ih (incVirtOne m ts r) hone_len
      refine ⟨ha, ?_, ?_⟩
      · rw [hm, hone_max]
      · intro p
        rw [hg p, hone_getD p]
        simp only [virtAmt, List.map_cons, List.sum_cons]
        omega

theorem decPhysList_spec (m : Machine) (hb : PBounded m) (rs : List Nat) :
    ∀ ts : Tracker, ts.currSetPressure.length = m.numPressureSets →
      (decPhysList m ts rs).currSetPressure.length = m.numPressureSets ∧
      (decPhysList m ts rs).p.maxSetPressure = ts.p.maxSetPressure ∧
      ∀ p, (decPhysList m ts rs).currSetPressure.getD p 0 =
        ts.currSetPressure.getD p 0 - physAmt m rs p := by
  induction rs with
  | nil => intro ts hlen; exact ⟨hlen, rfl, fun p => by simp [physAmt, decPhysList, chainL]⟩
  | cons r rs ih =>
      intro ts hlen
      simp only [decPhysList_cons]
      have hb1 : ∀ q ∈ m.classPressureSets (m.minimalPhysRegClass r),
          q < ts.currSetPressure.length := by
        intro q hq; rw [hlen]; exact hb _ q hq
      have hone_len : (decPhysOne m ts r).currSetPressure.length = m.numPressureSets := by
        show (decSets _ _ _).length = _
        rw [decSets_len, hlen]
      have hone_getD : ∀ p, (decPhysOne m ts r).currSetPressure.getD p 0 =
          ts.currSetPressure.getD p 0 -
            m.classWeight (m.minimalPhysRegClass r) *
              (m.classPressureSets (m.minimalPhysRegClass r)).count p := by
        intro p
        exact decSets_getD _ _ _ p hb1
      obtain ⟨ha, hm, hg⟩ := ih (decPhysOne m ts r) hone_len
      refine ⟨ha, hm, ?_⟩
      intro p
      rw [hg p, hone_getD p]
      simp only [physAmt, List.map_cons, List.sum_cons]
      omega

theorem decVirtList_spec (m : Machine) (hb : PBounded m) (rs : List Nat) :
    ∀ ts : Tracker, ts.currSetPressure.length = m.numPressureSets →
      (decVirtList m ts rs).currSetPressure.length = m.numPressureSets ∧
      (decVirtList m ts rs).p.maxSetPressure = ts.p.maxSetPressure ∧
      ∀ p, (decVirtList m ts rs).currSetPressure.getD p 0 =
        ts.currSetPressure.getD p 0 - virtAmt m rs p := by
  induction rs with
  | nil => intro ts hlen; exact ⟨hlen, rfl, fun p => by simp [virtAmt, decVirtList, chainL]⟩
  | cons r rs ih =>
      intro ts hlen
      simp only [decVirtList_cons]
      have hb1 : ∀ q ∈ m.classPressureSets (m.mriRegClass r),
          q < ts.currSetPressure.length := by
        intro q hq; rw [hlen]; exact hb _ q hq
      have hone_len : (decVirtOne m ts r).currSetPressure.length = m.numPressureSets := by
        show (decSets _ _ _).length = _
        rw [decSets_len, hlen]
      have hone_getD : ∀ p, (decVirtOne m ts r).currSetPressure.getD p 0 =
          ts.currSetPressure.getD p 0 -
            m.classWeight (m.mriRegClass r) *
              (m.classPressureSets (m.mriRegClass r)).count p := by
        intro p
        exact decSets_getD _ _ _ p hb1
      obtain ⟨ha, hm, hg⟩ := ih (decVirtOne m ts r) hone_len
      refine ⟨ha, hm, ?_⟩
      intro p
      rw [hg p, hone_getD p]
      simp only [virtAmt, List.map_cons, List.sum_cons]
      omega

theorem deadDefBump_spec (m : Machine) (hb : PBounded m) (ts : Tracker)
    (hlen : ts.currSetPressure.length = m.numPressureSets) (po vo : RegOps) :
    (deadDefBump m ts po vo).currSetPressure.length = m.numPressureSets ∧
      (deadDefBump m ts po vo).p.maxSetPressure.length = ts.p.maxSetPressure.length ∧
      ∀ p, (deadDefBump m ts po vo).currSetPressure.getD p 0 =
        ts.currSetPressure.getD p 0 := by
  unfold deadDefBump
  obtain ⟨l1, m1, g1⟩ := incPhysList_spec m hb po.deadDefs ts hlen
  obtain ⟨l2, m2, g2⟩ := incVirtList_spec m hb vo.deadDefs _ l1
  obtain ⟨l3, m3, g3⟩ := decPhysList_spec m hb po.deadDefs _ l2
  obtain ⟨l4, m4, g4⟩ := decVirtList_spec m hb vo.deadDefs _ l3
  refine ⟨l4, ?_, ?_⟩
  · rw [m4, m3, m2, m1]
  · intro p
    have a1 := g1 p
    have a2 := g2 p
    have a3 := g3 p
    have a4 := g4 p
    omega

theorem stripMax_deadDefBump (m : Machine) (ts : Tracker) (po vo : RegOps) :
    stripMax (deadDefBump m ts po vo) =
      { stripMax ts with currSetPressure := (deadDefBump m ts po vo).currSetPressure } := by
  unfold deadDefBump decVirtList decPhysList incVirtList incPhysList
  rw [stripMax_chainL (decVirtOne m) (fun ts r => rfl) vo.deadDefs,
    stripMax_chainL (decPhysOne m) (fun ts r => rfl) po.deadDefs,
    stripMax_chainL (incVirtOne m) (fun ts r => rfl) vo.deadDefs,
    stripMax_chainL (incPhysOne m) (fun ts r => rfl) po.deadDefs]

theorem exm_deadDefBump (m : Machine) (hb : PBounded m) (ts : Tracker)
    (hlen : ts.currSetPressure.length = m.numPressureSets) (po vo : RegOps) :
    EqExMax (deadDefBump m ts po vo) ts := by
  obtain ⟨hl, hm, hg⟩ := deadDefBump_spec m hb ts hlen po vo
  refine ⟨?_, hm, maxGe_deadDefBump m ts po vo⟩
  rw [stripMax_deadDefBump]
  have hc : (deadDefBump m ts po vo).currSetPressure = ts.currSetPressure :=
    list_ext_getD _ _ (by rw [hl, hlen]) hg
  rw [hc]
  rfl

theorem exm_recedeStep (m : Machine) (hb : PBounded m) (slot : Nat) (ts : Tracker)
    (hlen : ts.currSetPressure.length = m.numPressureSets) (po vo : RegOps) :
    EqExMax (recedeStep m slot ts po vo)
      (recedeStep m slot ts { po with deadDefs := [] } { vo with deadDefs := [] }) := by
  unfold recedeStep
  exact chainL_exm (fun a b r h => exm_recedeVirtUseOne m slot r h) vo.uses
    (chainL_exm (fun a b r h => exm_recedePhysUseOne m r h) po.uses
      (chainL_exm (fun a b r h => exm_recedeVirtDefOne m r h) vo.defs
        (chainL_exm (fun a b r h => exm_recedePhysDefOne m r h) po.defs
          (exm_deadDefBump m hb ts hlen po vo))))

theorem currLen_advancePhysUseOne (m : Machine) (ts : Tracker) (r : Nat) :
    (advancePhysUseOne m ts r).currSetPressure.length = ts.currSetPressure.length := by
  unfold advancePhysUseOne
  split
  · unfold discoverPhysLiveIn
    split <;> rfl
  · show (decSets _ _ _).length = _
    rw [decSets_len]

theorem currLen_advanceVirtUseOne (m : Machine) (slot : Nat) (ts : Tracker) (r : Nat) :
    (advanceVirtUseOne m slot ts r).currSetPressure.length =
      ts.currSetPressure.length := by
  unfold advanceVirtUseOne
  split
  · split
    · split
      · show (decSets _ _ _).length = _
        rw [decSets_len]
      · unfold discoverVirtLiveIn
        split <;> rfl
    · rfl
  · split
    · show (incSets _ _ _).1.length = _
      rw [(incSets_len _ _ _ _).1]
      unfold discoverVirtLiveIn
      split <;> rfl
    · rfl

theorem currLen_advancePhysDefOne (m : Machine) (ts : Tracker) (r : Nat) :
    (advancePhysDefOne m ts r).currSetPressure.length = ts.currSetPressure.length := by
  unfold advancePhysDefOne
  split
  · show (incSets _ _ _).1.length = _
    rw [(incSets_len _ _ _ _).1]
  · rfl

theorem currLen_advanceVirtDefOne (m : Machine) (ts : Tracker) (r : Nat) :
    (advanceVirtDefOne m ts r).currSetPressure.length = ts.currSetPressure.length := by
  unfold advanceVirtDefOne
  split
  · show (incSets _ _ _).1.length = _
    rw [(incSets_len _ _ _ _).1]
  · rfl

theorem exm_advanceStep (m : Machine) (hb : PBounded m) (slot : Nat) (ts : Tracker)
    (hlen : ts.currSetPressure.length = m.numPressureSets) (po vo : RegOps) :
    EqExMax (advanceStep m slot ts po vo)
      (advanceStep m slot ts { po with deadDefs := [] } { vo with deadDefs := [] }) := by
  unfold advanceStep
  have hlenS : (chainL (advanceVirtDefOne m)
      (chainL (advancePhysDefOne m)
        (chainL (advanceVirtUseOne m slot)
          (chainL (advancePhysUseOne m) ts po.uses) vo.uses) po.defs)
      vo.defs).currSetPressure.length = m.numPressureSets := by
    have p1 := chainL_pres
      (f := advancePhysUseOne m)
      (P := fun s => s.currSetPressure.length = m.numPressureSets)
      (fun s r hc => by
        show (advancePhysUseOne m s r).currSetPressure.length = m.numPressureSets
        rw [currLen_advancePhysUseOne]; exact hc) po.uses ts hlen
    have p2 := chainL_pres
      (f := advanceVirtUseOne m slot)
      (P := fun s => s.currSetPressure.length = m.numPressureSets)
      (fun s r hc => by
        show (advanceVirtUseOne m slot s r).currSetPressure.length = m.numPressureSets
        rw [currLen_advanceVirtUseOne]; exact hc) vo.uses _ p1
    have p3 := chainL_pres
      (f := advancePhysDefOne m)
      (P := fun s => s.currSetPressure.length = m.numPressureSets)
      (fun s r hc => by
        show (advancePhysDefOne m s r).currSetPressure.length = m.numPressureSets
        rw [currLen_advancePhysDefOne]; exact hc) po.defs _ p2
    exact chainL_pres
      (f := advanceVirtDefOne m)
      (P := fun s => s.currSetPressure.length = m.numPressureSets)
      (fun s r hc => by
        show (advanceVirtDefOne m s r).currSetPressure.length = m.numPressureSets
        rw [currLen_advanceVirtDefOne]; exact hc) vo.defs _ p3
  exact exm_deadDefBump m hb _ hlenS po vo

/-- C4: processing an instruction's operand records with the dead defs
removed yields a state identical in everything except the max vector
(same current pressure, same live sets, same result lists and
boundaries), while the max vector of the run without the dead defs is
dominated pointwise by the run with them, for both the recede core and
the advance core. -/
theorem C4_dead_defs_net_zero (m : Machine) (hb : PBounded m) (slot : Nat)
    (ts : Tracker) (hlen : ts.currSetPressure.length = m.numPressureSets)
    (po vo : RegOps) :
    (stripMax (recedeStep m slot ts po vo) =
       stripMax (recedeStep m slot ts { po with deadDefs := [] }
         { vo with deadDefs := [] })) ∧
    (∀ p, (recedeStep m slot ts { po with deadDefs := [] }
         { vo with deadDefs := [] }).p.maxSetPressure.getD p 0 ≤
       (recedeStep m slot ts po vo).p.maxSetPressure.getD p 0) ∧
    (stripMax (advanceStep m slot ts po vo) =
       stripMax (advanceStep m slot ts { po with deadDefs := [] }
         { vo with deadDefs := [] })) ∧
    (∀ p, (advanceStep m slot ts { po with deadDefs := [] }
         { vo with deadDefs := [] }).p.maxSetPressure.getD p 0 ≤
       (advanceStep m slot ts po vo).p.maxSetPressure.getD p 0) := by
  obtain ⟨r1, _, r3⟩ := exm_recedeStep m hb slot ts hlen po vo
  obtain ⟨a1, _, a3⟩ := exm_advanceStep m hb slot ts hlen po vo
  exact ⟨r1, r3, a1, a3⟩

/-- The operand record of a single dead def of register 7 (physical under
mVirt), for the C4 witness. -/
def poW : RegOps := { uses := [], defs := [], deadDefs := [7] }

/-- Witness for C4 at a concrete machine, state and operand records. -/
theorem C4_witness :
    stripMax (recedeStep mVirt 0 tsEmptyI poW poW) =
      stripMax (recedeStep mVirt 0 tsEmptyI { poW with deadDefs := [] }
        { poW with deadDefs := [] }) :=
  (C4_dead_defs_net_zero mVirt
    (fun c q hq => by
      simp only [mVirt] at hq
      simp only [List.mem_singleton] at hq
      simp [mVirt, hq])
    0 tsEmptyI rfl poW poW).1

/-! ## Debug-value transparency (C8 machinery) -/

/-- Two blocks of the same shape: equal length, the same debug-value
flags everywhere, and identical instructions at every non-debug index.
They may differ arbitrarily in the operands of debug-value
instructions. -/
def SameShape (B B' : List MachineInstr) : Prop :=
  B.length = B'.length ∧ (∀ i, isDebugAt B i = isDebugAt B' i) ∧
    (∀ i, isDebugAt B i = false → instrAt B i = instrAt B' i)

theorem isDebugAt_oob (B : List MachineInstr) (j : Nat) (h : B.length ≤ j) :
    isDebugAt B j = false := by
  unfold isDebugAt instrAt
  rw [List.getD_eq_default]
  · rfl
  · exact h

theorem goBack_le (B : List MachineInstr) (q : Nat) : goBack B q ≤ q := by
  induction q with
  | zero => exact le_refl 0
  | succ q ih =>
      unfold goBack
      split
      · exact le_trans ih (Nat.le_succ q)
      · exact le_refl _

theorem goBack_cases (B : List MachineInstr) (q : Nat) :
    isDebugAt B (goBack B q) = false ∨
      (goBack B q = 0 ∧ ∀ j, j ≤ q → isDebugAt B j = true) := by
  induction q with
  | zero =>
      by_cases h : isDebugAt B 0 = true
      · right
        exact ⟨rfl, fun j hj => by rw [Nat.le_zero.mp hj]; exact h⟩
      · left
        show isDebugAt B (goBack B 0) = false
        unfold goBack
        exact Bool.not_eq_true _ ▸ (Bool.eq_false_iff.mpr h)
  | succ q ih =>
      unfold goBack
      split
      · next hd =>
          rcases ih with h | ⟨h0, hall⟩
          · left; exact h
          · right
            refine ⟨h0, fun j hj => ?_⟩
            rcases Nat.lt_or_ge j (q + 1) with hlt | hge
            · exact hall j (Nat.lt_succ_iff.mp hlt)
            · have : j = q + 1 := le_antisymm hj hge
              rw [this]; exact hd
      · next hd =>
          left
          exact Bool.eq_false_iff.mpr hd

theorem goBack_congr {B B' : List MachineInstr}
    (hdbg : ∀ i, isDebugAt B i = isDebugAt B' i) (q : Nat) :
    goBack B q = goBack B' q := by
  induction q with
  | zero => rfl
  | succ q ih =>
      unfold goBack
      rw [hdbg (q + 1), ih]

theorem firstNonDebug_congr {l l' : List MachineInstr}
    (hlen : l.length = l'.length)
    (hdbg : ∀ i, (l.getD i dummyInstr).isDebugValue = (l'.getD i dummyInstr).isDebugValue) :
    firstNonDebug l = firstNonDebug l' := by
  induction l generalizing l' with
  | nil =>
      cases l' with
      | nil => rfl
      | cons y ys => simp at hlen
  | cons x xs ih =>
      cases l' with
      | nil => simp at hlen
      | cons y ys =>
          have h0 : x.isDebugValue = y.isDebugValue := by simpa using hdbg 0
          have hrest := @ih ys (by simpa using hlen)
            (fun i => by simpa using hdbg (i + 1))
          unfold firstNonDebug
          rw [h0, hrest]

theorem fwdSkip_congr {B B' : List MachineInstr} (hlen : B.length = B'.length)
    (hdbg : ∀ i, isDebugAt B i = isDebugAt B' i) (y : Nat) :
    fwdSkip B y = fwdSkip B' y := by
  unfold fwdSkip
  rw [@firstNonDebug_congr (B.drop y) (B'.drop y) (by simp [hlen])
    (fun i => by
      rw [getD_drop, getD_drop]
      exact hdbg (y + i))]

theorem fwdSkip_nondebug (B : List MachineInstr) (y : Nat) :
    isDebugAt B (fwdSkip B y) = false := by
  unfold fwdSkip
  rcases Nat.lt_or_ge (firstNonDebug (B.drop y)) (B.drop y).length with h | h
  · have := firstNonDebug_lands (B.drop y) h
    rw [getD_drop] at this
    exact this
  · apply isDebugAt_oob
    have hd : (B.drop y).length = B.length - y := by simp
    omega

theorem currPos_chainMember (f : Tracker → Nat → Tracker)
    (hf : ∀ s r, (f s r).currPos = s.currPos) (rs : List Nat) (ts : Tracker) :
    (chainL f ts rs).currPos = ts.currPos := by
  induction rs generalizing ts with
  | nil => rfl
  | cons r rs ih => rw [show chainL f ts (r :: rs) = chainL f (f ts r) rs from rfl,
      ih (f ts r), hf ts r]

theorem currPos_recedePhysDefOne (m : Machine) (s : Tracker) (r : Nat) :
    (recedePhysDefOne m s r).currPos = s.currPos := by
  unfold recedePhysDefOne discoverPhysLiveOut
  split
  · rfl
  · split <;> rfl

theorem currPos_recedeVirtDefOne (m : Machine) (s : Tracker) (r : Nat) :
    (recedeVirtDefOne m s r).currPos = s.currPos := by
  unfold recedeVirtDefOne discoverVirtLiveOut
  split
  · rfl
  · split <;> rfl

theorem currPos_recedePhysUseOne (m : Machine) (s : Tracker) (r : Nat) :
    (recedePhysUseOne m s r).currPos = s.currPos := by
  unfold recedePhysUseOne
  split <;> rfl

theorem currPos_recedeVirtUseOne (m : Machine) (slot : Nat) (s : Tracker) (r : Nat) :
    (recedeVirtUseOne m slot s r).currPos = s.currPos := by
  unfold recedeVirtUseOne discoverVirtLiveOut
  split
  · split
    · split <;> rfl
    · rfl
  · rfl

theorem currPos_incDec (m : Machine) (ts : Tracker) (po vo : RegOps) :
    (deadDefBump m ts po vo).currPos = ts.currPos := by
  unfold deadDefBump decVirtList decPhysList incVirtList incPhysList
  rw [currPos_chainMember (decVirtOne m) (fun s r => rfl),
    currPos_chainMember (decPhysOne m) (fun s r => rfl),
    currPos_chainMember (incVirtOne m) (fun s r => rfl),
    currPos_chainMember (incPhysOne m) (fun s r => rfl)]

theorem currPos_recedeStep (m : Machine) (slot : Nat) (ts : Tracker) (po vo : RegOps) :
    (recedeStep m slot ts po vo).currPos = ts.currPos := by
  unfold recedeStep
  rw [currPos_chainMember (recedeVirtUseOne m slot) (currPos_recedeVirtUseOne m slot),
    currPos_chainMember (recedePhysUseOne m) (currPos_recedePhysUseOne m),
    currPos_chainMember (recedeVirtDefOne m) (currPos_recedeVirtDefOne m),
    currPos_chainMember (recedePhysDefOne m) (currPos_recedePhysDefOne m),
    currPos_incDec]

theorem currPos_recedeOpen (m : Machine) (L : Nat) (ts : Tracker) :
    (recedeOpen m L ts).currPos = ts.currPos := by
  unfold recedeOpen
  dsimp only
  repeat' split
  all_goals rfl

theorem currPos_advanceOpen (m : Machine) (ts : Tracker) :
    (advanceOpen m ts).currPos = ts.currPos := by
  unfold advanceOpen
  dsimp only
  repeat' split
  all_goals rfl

theorem recede_congr (m : Machine) {B B' : List MachineInstr} (hss : SameShape B B')
    (ts : Tracker) : recede m B ts = recede m B' ts := by
  obtain ⟨hlen, hdbg, hinstr⟩ := hss
  simp only [recede]
  rw [hlen, goBack_congr hdbg]
  split
  · rfl
  · rw [hdbg]
    split
    · rfl
    · next hd =>
        have hnd := (hdbg _).trans (Bool.eq_false_iff.mpr hd)
        rw [hinstr _ hnd]

theorem advance_congr (m : Machine) {B B' : List MachineInstr} (hss : SameShape B B')
    (ts : Tracker)
    (hcur : ts.currPos = B.length ∨ isDebugAt B ts.currPos = false) :
    advance m B ts = advance m B' ts := by
  obtain ⟨hlen, hdbg, hinstr⟩ := hss
  simp only [advance]
  rw [hlen, fwdSkip_congr hlen hdbg, currPos_advanceOpen]
  split
  · rfl
  · next h =>
      have hnd : isDebugAt B ts.currPos = false := by
        rcases hcur with h1 | h1
        · rw [hlen] at h1; exact absurd h1 h
        · exact h1
      rw [hinstr _ hnd]

theorem advance_false_iff (m : Machine) (B : List MachineInstr) (ts : Tracker) :
    (advance m B ts).2 = false ↔ ts.currPos = B.length := by
  simp only [advance]
  split
  · next h => simpa using h
  · next h => simpa using h

theorem recede_false_iff (m : Machine) (B : List MachineInstr) (ts : Tracker) :
    (recede m B ts).2 = false ↔
      (ts.currPos = 0 ∨ ∀ j, j < ts.currPos → isDebugAt B j = true) := by
  simp only [recede]
  split
  · next h => simp [h]
  · next h =>
      rw [currPos_recedeOpen]
      split
      · next hd =>
          refine iff_of_true rfl ?_
          right
          intro j hj
          rcases goBack_cases B (ts.currPos - 1) with hc | ⟨h0, hall⟩
          · rw [hc] at hd; exact absurd hd (by simp)
          · exact hall j (by omega)
      · next hd =>
          refine iff_of_false (by simp) ?_
          rintro (h0 | hall)
          · exact h h0
          · exact hd (hall _ (by
              have := goBack_le B (ts.currPos - 1)
              omega))

theorem recede_lands_nondebug (m : Machine) (B : List MachineInstr) (ts : Tracker)
    (h : (recede m B ts).2 = true) :
    isDebugAt B ((recede m B ts).1.currPos) = false := by
  simp only [recede] at h ⊢
  split at h
  · simp at h
  · next h0 =>
      rw [currPos_recedeOpen] at h ⊢
      split at h
      · simp at h
      · next hd =>
          rw [if_neg h0, if_neg hd]
          show isDebugAt B ((recedeStep m _ _ _ _).currPos) = false
          rw [currPos_recedeStep]
          split <;> exact Bool.eq_false_iff.mpr hd

theorem advance_lands_nondebug (m : Machine) (B : List MachineInstr) (ts : Tracker)
    (h : (advance m B ts).2 = true) :
    isDebugAt B ((advance m B ts).1.currPos) = false := by
  simp only [advance] at h ⊢
  split at h
  · simp at h
  · next h0 =>
      rw [if_neg h0]
      exact fwdSkip_nondebug B _

theorem C8_debug_values_transparent (m : Machine) (B B' : List MachineInstr)
    (ts : Tracker) (hss : SameShape B B')
    (hcur : ts.currPos = B.length ∨ isDebugAt B ts.currPos = false) :
    (recede m B ts = recede m B' ts) ∧
    (advance m B ts = advance m B' ts) ∧
    ((advance m B ts).2 = false ↔ ts.currPos = B.length) ∧
    ((recede m B ts).2 = false ↔
      (ts.currPos = 0 ∨ ∀ j, j < ts.currPos → isDebugAt B j = true)) ∧
    ((recede m B ts).2 = true → isDebugAt B ((recede m B ts).1.currPos) = false) ∧
    ((advance m B ts).2 = true → isDebugAt B ((advance m B ts).1.currPos) = false) :=
  ⟨recede_congr m hss ts, advance_congr m hss ts hcur,
    advance_false_iff m B ts, recede_false_iff m B ts,
    recede_lands_nondebug m B ts, advance_lands_nondebug m B ts⟩

/-- A same-shape variant of bDbgUse whose debug instruction carries
different operands. -/
def bDbgUse2 : List MachineInstr :=
  [ { isDebugValue := true, operands := [useOp 5, defOp 7] },
    { isDebugValue := false, operands := [useOp 5] } ]

/-- Witness for C8: the recede results agree on two concrete blocks that
differ only in the debug instruction's operands. -/
theorem C8_witness :
    recede mVirt bDbgUse (initT mVirt bDbgUse true 2) =
      recede mVirt bDbgUse2 (initT mVirt bDbgUse true 2) :=
  (C8_debug_values_transparent mVirt bDbgUse bDbgUse2 (initT mVirt bDbgUse true 2)
    ⟨rfl,
      fun i => by
        match i with
        | 0 => rfl
        | 1 => rfl
        | (i + 2) => rfl,
      fun i h => by
        match i with
        | 0 => simp [isDebugAt, instrAt, bDbgUse, dummyInstr] at h
        | 1 => rfl
        | (i + 2) => rfl⟩
    (Or.inl rfl)).1

/-! ## The pressure-sum invariant (C2 machinery)

The claimed sum formula fails on the code as written (see the
counterexample above).  It does hold for the interval-mode tracker over a
machine whose aliasing is trivial (every register overlaps only itself)
and whose per-class pressure-set lists are duplicate-free and in range;
this section proves that amended invariant across every recede/advance
sequence from init. -/

/-- The per-class pressure-set lists are duplicate-free. -/
def PNodupS (m : Machine) : Prop :=
  ∀ c, (m.classPressureSets c).Nodup

/-- Every register aliases only itself. -/
def TrivAlias (m : Machine) : Prop :=
  ∀ r, m.overlaps r = [r]

/-- The invariant carried through an interval-mode traversal: the flag is
set, the current vector has full length, and every counter equals the
contribution sum over the live sets. -/
def InvRA (m : Machine) (ts : Tracker) : Prop :=
  ts.requireIntervals = true ∧
  ts.currSetPressure.length = m.numPressureSets ∧
  ∀ p, ts.currSetPressure.getD p 0 =
    sumContrib m ts.livePhysRegs ts.liveVirtRegs p

theorem physContrib_eq_count (m : Machine) (hnd : PNodupS m) (r p : Nat) :
    m.classWeight (m.minimalPhysRegClass r) *
      (m.classPressureSets (m.minimalPhysRegClass r)).count p =
      physContrib m r p := by
  unfold physContrib
  by_cases hp : p ∈ m.classPressureSets (m.minimalPhysRegClass r)
  · rw [if_pos hp, List.count_eq_one_of_mem (hnd _) hp, Nat.mul_one]
  · rw [if_neg hp, List.count_eq_zero_of_not_mem hp, Nat.mul_zero]

theorem virtContrib_eq_count (m : Machine) (hnd : PNodupS m) (r p : Nat) :
    m.classWeight (m.mriRegClass r) *
      (m.classPressureSets (m.mriRegClass r)).count p =
      virtContrib m r p := by
  unfold virtContrib
  by_cases hp : p ∈ m.classPressureSets (m.mriRegClass r)
  · rw [if_pos hp, List.count_eq_one_of_mem (hnd _) hp, Nat.mul_one]
  · rw [if_neg hp, List.count_eq_zero_of_not_mem hp, Nat.mul_zero]

theorem sumContrib_append_phys (m : Machine) (lp lv : List Nat) (r p : Nat) :
    sumContrib m (lp ++ [r]) lv p = sumContrib m lp lv p + physContrib m r p := by
  unfold sumContrib
  rw [List.map_append, List.sum_append]
  simp only [List.map_cons, List.map_nil, List.sum_cons, List.sum_nil]
  omega

theorem sumContrib_append_virt (m : Machine) (lp lv : List Nat) (r p : Nat) :
    sumContrib m lp (lv ++ [r]) p = sumContrib m lp lv p + virtContrib m r p := by
  unfold sumContrib
  rw [List.map_append, List.sum_append]
  simp only [List.map_cons, List.map_nil, List.sum_cons, List.sum_nil]
  omega

theorem sumContrib_erase_phys (m : Machine) (r : Nat) {lp : List Nat}
    (hmem : r ∈ lp) (lv : List Nat) (p : Nat) :
    sumContrib m lp lv p =
      sumContrib m (lp.erase r) lv p + physContrib m r p := by
  have hperm : lp.Perm (r :: lp.erase r) := List.perm_cons_erase hmem
  unfold sumContrib
  rw [(hperm.map (fun x => physContrib m x p)).sum_eq]
  simp only [List.map_cons, List.sum_cons]
  omega

theorem sumContrib_erase_virt (m : Machine) (r : Nat) {lv : List Nat}
    (hmem : r ∈ lv) (lp : List Nat) (p : Nat) :
    sumContrib m lp lv p =
      sumContrib m lp (lv.erase r) p + virtContrib m r p := by
  have hperm : lv.Perm (r :: lv.erase r) := List.perm_cons_erase hmem
  unfold sumContrib
  rw [(hperm.map (fun x => virtContrib m x p)).sum_eq]
  simp only [List.map_cons, List.sum_cons]
  omega

/-- Under trivial aliasing the alias search reduces to plain membership. -/
theorem aliasIn_triv (m : Machine) (htriv : TrivAlias m) (r : Nat)
    (l : List Nat) : aliasIn m r l = l.contains r := by
  unfold aliasIn
  rw [htriv r]
  simp [List.any]

theorem InvRA_ite {m : Machine} (c : Prop) [Decidable c] {a b : Tracker}
    (ha : InvRA m a) (h2 : InvRA m b) : InvRA m (if c then a else b) := by
  split
  · exact ha
  · exact h2

/-- Discovery only touches the result record, so it preserves the
invariant (which reads only the flag, the current vector and the live
sets). -/
theorem inv_discoverPhysLiveIn (m : Machine) (r : Nat) {ts : Tracker}
    (h : InvRA m ts) : InvRA m (discoverPhysLiveIn m ts r) := by
  unfold discoverPhysLiveIn
  split
  · exact h
  · exact h

theorem inv_discoverPhysLiveOut (m : Machine) (r : Nat) {ts : Tracker}
    (h : InvRA m ts) : InvRA m (discoverPhysLiveOut m ts r) := by
  unfold discoverPhysLiveOut
  split
  · exact h
  · exact h

theorem inv_discoverVirtLiveIn (m : Machine) (r : Nat) {ts : Tracker}
    (h : InvRA m ts) : InvRA m (discoverVirtLiveIn m ts r) := by
  unfold discoverVirtLiveIn
  split
  · exact h
  · exact h

theorem inv_discoverVirtLiveOut (m : Machine) (r : Nat) {ts : Tracker}
    (h : InvRA m ts) : InvRA m (discoverVirtLiveOut m ts r) := by
  unfold discoverVirtLiveOut
  split
  · exact h
  · exact h

/-- Erase-then-decrease of a live physical register preserves the sum. -/
theorem inv_eraseDecPhys (m : Machine) (hb : PBounded m) (hnd : PNodupS m)
    (r : Nat) {ts : Tracker} (hc : ts.livePhysRegs.contains r = true)
    (h : InvRA m ts) :
    InvRA m (decPhysOne m { ts with livePhysRegs := ts.livePhysRegs.erase r } r) := by
  obtain ⟨hf, hlen, hsum⟩ := h
  have hmem : r ∈ ts.livePhysRegs := by simpa using hc
  have hb1 : ∀ q ∈ m.classPressureSets (m.minimalPhysRegClass r),
      q < ts.currSetPressure.length := by
    intro q hq
    rw [hlen]
    exact hb _ q hq
  refine ⟨hf, ?_, ?_⟩
  · show (decSets (m.classWeight (m.minimalPhysRegClass r))
        (m.classPressureSets (m.minimalPhysRegClass r))
        ts.currSetPressure).length = m.numPressureSets
    rw [decSets_len]
    exact hlen
  · intro p
    show (decSets (m.classWeight (m.minimalPhysRegClass r))
        (m.classPressureSets (m.minimalPhysRegClass r))
        ts.currSetPressure).getD p 0 =
      sumContrib m (ts.livePhysRegs.erase r) ts.liveVirtRegs p
    rw [decSets_getD _ _ _ p hb1, physContrib_eq_count m hnd r p, hsum p,
      sumContrib_erase_phys m r hmem ts.liveVirtRegs p]
    omega

/-- Erase-then-decrease of a live virtual register preserves the sum. -/
theorem inv_eraseDecVirt (m : Machine) (hb : PBounded m) (hnd : PNodupS m)
    (r : Nat) {ts : Tracker} (hc : ts.liveVirtRegs.contains r = true)
    (h : InvRA m ts) :
    InvRA m (decVirtOne m { ts with liveVirtRegs := ts.liveVirtRegs.erase r } r) := by
  obtain ⟨hf, hlen, hsum⟩ := h
  have hmem : r ∈ ts.liveVirtRegs := by simpa using hc
  have hb1 : ∀ q ∈ m.classPressureSets (m.mriRegClass r),
      q < ts.currSetPressure.length := by
    intro q hq
    rw [hlen]
    exact hb _ q hq
  refine ⟨hf, ?_, ?_⟩
  · show (decSets (m.classWeight (m.mriRegClass r))
        (m.classPressureSets (m.mriRegClass r))
        ts.currSetPressure).length = m.numPressureSets
    rw [decSets_len]
    exact hlen
  · intro p
    show (decSets (m.classWeight (m.mriRegClass r))
        (m.classPressureSets (m.mriRegClass r))
        ts.currSetPressure).getD p 0 =
      sumContrib m ts.livePhysRegs (ts.liveVirtRegs.erase r) p
    rw [decSets_getD _ _ _ p hb1, virtContrib_eq_count m hnd r p, hsum p,
      sumContrib_erase_virt m r hmem ts.livePhysRegs p]
    omega

/-- Increase-then-append of an absent physical register preserves the sum. -/
theorem inv_incPhysAppend (m : Machine) (hb : PBounded m) (hnd : PNodupS m)
    (r : Nat) {ts : Tracker} (h : InvRA m ts) :
    InvRA m { incPhysOne m ts r with
              livePhysRegs := ts.livePhysRegs ++ [r] } := by
  obtain ⟨hf, hlen, hsum⟩ := h
  have hb1 : ∀ q ∈ m.classPressureSets (m.minimalPhysRegClass r),
      q < ts.currSetPressure.length := by
    intro q hq
    rw [hlen]
    exact hb _ q hq
  refine ⟨hf, ?_, ?_⟩
  · show (incSets (m.classWeight (m.minimalPhysRegClass r))
        (m.classPressureSets (m.minimalPhysRegClass r))
        (ts.currSetPressure, ts.p.maxSetPressure)).1.length = m.numPressureSets
    rw [(incSets_len _ _ _ _).1]
    exact hlen
  · intro p
    show (incSets (m.classWeight (m.minimalPhysRegClass r))
        (m.classPressureSets (m.minimalPhysRegClass r))
        (ts.currSetPressure, ts.p.maxSetPressure)).1.getD p 0 =
      sumContrib m (ts.livePhysRegs ++ [r]) ts.liveVirtRegs p
    rw [incSets_fst_getD _ _ _ _ p hb1, physContrib_eq_count m hnd r p, hsum p,
      sumContrib_append_phys]

/-- Increase-then-append of an absent virtual register preserves the sum. -/
theorem inv_incVirtAppend (m : Machine) (hb : PBounded m) (hnd : PNodupS m)
    (r : Nat) {ts : Tracker} (h : InvRA m ts) :
    InvRA m { incVirtOne m ts r with
              liveVirtRegs := ts.liveVirtRegs ++ [r] } := by
  obtain ⟨hf, hlen, hsum⟩ := h
  have hb1 : ∀ q ∈ m.classPressureSets (m.mriRegClass r),
      q < ts.currSetPressure.length := by
    intro q hq
    rw [hlen]
    exact hb _ q hq
  refine ⟨hf, ?_, ?_⟩
  · show (incSets (m.classWeight (m.mriRegClass r))
        (m.classPressureSets (m.mriRegClass r))
        (ts.currSetPressure, ts.p.maxSetPressure)).1.length = m.numPressureSets
    rw [(incSets_len _ _ _ _).1]
    exact hlen
  · intro p
    show (incSets (m.classWeight (m.mriRegClass r))
        (m.classPressureSets (m.mriRegClass r))
        (ts.currSetPressure, ts.p.maxSetPressure)).1.getD p 0 =
      sumContrib m ts.livePhysRegs (ts.liveVirtRegs ++ [r]) p
    rw [incSets_fst_getD _ _ _ _ p hb1, virtContrib_eq_count m hnd r p, hsum p,
      sumContrib_append_virt]

/-- The dead-def bump preserves the invariant: it leaves the live sets
and the flag alone and its net effect on every current counter is zero. -/
theorem inv_deadDefBump (m : Machine) (hb : PBounded m) (po vo : RegOps)
    {ts : Tracker} (h : InvRA m ts) : InvRA m (deadDefBump m ts po vo) := by
  obtain ⟨hf, hlen, hsum⟩ := h
  obtain ⟨l1, _, g1⟩ := deadDefBump_spec m hb ts hlen po vo
  have hs : stripMax (deadDefBump m ts po vo) =
      stripMax { ts with
        currSetPressure := (deadDefBump m ts po vo).currSetPressure } :=
    stripMax_deadDefBump m ts po vo
  refine ⟨by rw [strip_flag hs]; exact hf, l1, ?_⟩
  intro p
  rw [g1 p, strip_livePhys hs, strip_liveVirt hs]
  exact hsum p

theorem inv_recedePhysDefOne (m : Machine) (hb : PBounded m) (hnd : PNodupS m)
    (r : Nat) {ts : Tracker} (h : InvRA m ts) :
    InvRA m (recedePhysDefOne m ts r) := by
  unfold recedePhysDefOne
  split
  · next hc => exact inv_eraseDecPhys m hb hnd r hc h
  · exact inv_discoverPhysLiveOut m r h

theorem inv_recedeVirtDefOne (m : Machine) (hb : PBounded m) (hnd : PNodupS m)
    (r : Nat) {ts : Tracker} (h : InvRA m ts) :
    InvRA m (recedeVirtDefOne m ts r) := by
  unfold recedeVirtDefOne
  split
  · next hc => exact inv_eraseDecVirt m hb hnd r hc h
  · exact inv_discoverVirtLiveOut m r h

theorem inv_recedePhysUseOne (m : Machine) (hb : PBounded m) (hnd : PNodupS m)
    (r : Nat) {ts : Tracker} (h : InvRA m ts) :
    InvRA m (recedePhysUseOne m ts r) := by
  unfold recedePhysUseOne
  split
  · exact inv_incPhysAppend m hb hnd r h
  · exact h

theorem inv_recedeVirtUseOne (m : Machine) (hb : PBounded m) (hnd : PNodupS m)
    (slot : Nat) (r : Nat) {ts : Tracker} (h : InvRA m ts) :
    InvRA m (recedeVirtUseOne m slot ts r) := by
  unfold recedeVirtUseOne
  split
  · exact inv_incVirtAppend m hb hnd r
      (InvRA_ite _ (inv_discoverVirtLiveOut m r h) h)
  · exact h

theorem inv_advancePhysUseOne (m : Machine) (hb : PBounded m) (hnd : PNodupS m)
    (htriv : TrivAlias m) (r : Nat) {ts : Tracker} (h : InvRA m ts) :
    InvRA m (advancePhysUseOne m ts r) := by
  unfold advancePhysUseOne
  rw [aliasIn_triv m htriv r ts.livePhysRegs]
  split
  · exact inv_discoverPhysLiveIn m r h
  · next hc =>
      have hc2 : ts.livePhysRegs.contains r = true := by
        simpa using hc
      exact inv_eraseDecPhys m hb hnd r hc2 h

theorem inv_advanceVirtUseOne (m : Machine) (hb : PBounded m) (hnd : PNodupS m)
    (slot : Nat) (r : Nat) {ts : Tracker} (h : InvRA m ts) :
    InvRA m (advanceVirtUseOne m slot ts r) := by
  unfold advanceVirtUseOne
  split
  · split
    · split
      · next hc => exact inv_eraseDecVirt m hb hnd r hc h
      · exact inv_discoverVirtLiveIn m r h
    · exact h
  · next hni => exact absurd h.1 hni

theorem inv_advancePhysDefOne (m : Machine) (hb : PBounded m) (hnd : PNodupS m)
    (r : Nat) {ts : Tracker} (h : InvRA m ts) :
    InvRA m (advancePhysDefOne m ts r) := by
  unfold advancePhysDefOne
  split
  · exact inv_incPhysAppend m hb hnd r h
  · exact h

theorem inv_advanceVirtDefOne (m : Machine) (hb : PBounded m) (hnd : PNodupS m)
    (r : Nat) {ts : Tracker} (h : InvRA m ts) :
    InvRA m (advanceVirtDefOne m ts r) := by
  unfold advanceVirtDefOne
  split
  · exact inv_incVirtAppend m hb hnd r h
  · exact h

theorem inv_recedeStep (m : Machine) (hb : PBounded m) (hnd : PNodupS m)
    (slot : Nat) (po vo : RegOps) {ts : Tracker} (h : InvRA m ts) :
    InvRA m (recedeStep m slot ts po vo) := by
  unfold recedeStep
  refine chainL_pres (fun s r hs => inv_recedeVirtUseOne m hb hnd slot r hs)
    vo.uses _ ?_
  refine chainL_pres (fun s r hs => inv_recedePhysUseOne m hb hnd r hs)
    po.uses _ ?_
  refine chainL_pres (fun s r hs => inv_recedeVirtDefOne m hb hnd r hs)
    vo.defs _ ?_
  refine chainL_pres (fun s r hs => inv_recedePhysDefOne m hb hnd r hs)
    po.defs _ ?_
  exact inv_deadDefBump m hb po vo h

theorem inv_advanceStep (m : Machine) (hb : PBounded m) (hnd : PNodupS m)
    (htriv : TrivAlias m) (slot : Nat) (po vo : RegOps) {ts : Tracker}
    (h : InvRA m ts) : InvRA m (advanceStep m slot ts po vo) := by
  unfold advanceStep
  refine inv_deadDefBump m hb po vo ?_
  refine chainL_pres (fun s r hs => inv_advanceVirtDefOne m hb hnd r hs)
    vo.defs _ ?_
  refine chainL_pres (fun s r hs => inv_advancePhysDefOne m hb hnd r hs)
    po.defs _ ?_
  refine chainL_pres (fun s r hs => inv_advanceVirtUseOne m hb hnd slot r hs)
    vo.uses _ ?_
  refine chainL_pres (fun s r hs => inv_advancePhysUseOne m hb hnd htriv r hs)
    po.uses _ ?_
  exact h

/-- Closing a boundary only touches the result record. -/
theorem inv_closeRegion (m : Machine) (L : Nat) (ts : Tracker)
    (h : InvRA m ts) : InvRA m (closeRegion m L ts) := by
  unfold closeRegion
  split
  · exact h
  · split
    · exact h
    · split
      · exact h
      · exact h

theorem inv_recedeOpen (m : Machine) (L : Nat) (ts : Tracker)
    (h : InvRA m ts) : InvRA m (recedeOpen m L ts) := by
  unfold recedeOpen
  dsimp only
  have h1 : InvRA m (if !isBottomClosed ts then closeBottom m L ts else ts) :=
    InvRA_ite _ h h
  exact InvRA_ite _ h1 h1

theorem inv_advanceOpen (m : Machine) (ts : Tracker)
    (h : InvRA m ts) : InvRA m (advanceOpen m ts) := by
  unfold advanceOpen
  dsimp only
  have h1 : InvRA m (if !isTopClosed ts then closeTop m ts else ts) :=
    InvRA_ite _ h h
  exact InvRA_ite _ (InvRA_ite _ h1 h1) h1

theorem inv_recede (m : Machine) (B : List MachineInstr) (hb : PBounded m)
    (hnd : PNodupS m) (ts : Tracker) (h : InvRA m ts) :
    InvRA m (recede m B ts).1 := by
  unfold recede
  split
  · exact inv_closeRegion m B.length ts h
  · dsimp only
    have h2 : InvRA m (recedeOpen m B.length ts) := inv_recedeOpen m B.length ts h
    split
    · exact inv_closeRegion m B.length _ h2
    · exact inv_recedeStep m hb hnd _ _ _ (InvRA_ite _ h2 h2)

theorem inv_advance (m : Machine) (B : List MachineInstr) (hb : PBounded m)
    (hnd : PNodupS m) (htriv : TrivAlias m) (ts : Tracker) (h : InvRA m ts) :
    InvRA m (advance m B ts).1 := by
  unfold advance
  split
  · exact inv_closeRegion m B.length ts h
  · dsimp only
    exact inv_advanceStep m hb hnd htriv _ _ _ (inv_advanceOpen m ts h)

theorem inv_runRA (m : Machine) (B : List MachineInstr) (hb : PBounded m)
    (hnd : PNodupS m) (htriv : TrivAlias m) (bs : List Bool) (ts : Tracker)
    (h : InvRA m ts) : InvRA m (runRA m B ts bs) := by
  induction bs generalizing ts with
  | nil => exact h
  | cons b bs ih =>
      show InvRA m (runRA m B
        (if b then (advance m B ts).1 else (recede m B ts).1) bs)
      refine ih _ ?_
      cases b
      · exact inv_recede m B hb hnd ts h
      · exact inv_advance m B hb hnd htriv ts h

theorem initT_inv (m : Machine) (B : List MachineInstr) (pos : Nat) :
    InvRA m (initT m B true pos) := by
  refine ⟨rfl, ?_, ?_⟩
  · show (List.replicate m.numPressureSets 0).length = m.numPressureSets
    simp
  · intro q
    show (List.replicate m.numPressureSets 0).getD q 0 = sumContrib m [] [] q
    rw [getD_replicate_zero]
    rfl

/-- C2 (amended): after every sequence of recede and advance steps of an
interval-mode traversal (requireIntervals = true, as started by init)
over a machine in which every register aliases only itself and whose
per-class pressure-set lists are duplicate-free with entries below
numPressureSets, every current pressure counter equals the sum, over the
registers of the live-phys and live-virt sets, of the class weight gated
on membership of the pressure set in the class's pressure-set list.  (On
the unrestricted code of the claim the formula is refuted above: the
non-interval advance path increases pressure for a use it never inserts
into the live set, and aliasing breaks the identity-based erase.) -/
theorem C2_pressure_sum_invariant (m : Machine) (B : List MachineInstr)
    (hb : PBounded m) (hnd : PNodupS m) (htriv : TrivAlias m)
    (pos : Nat) (bs : List Bool) (p : Nat) :
    (runRA m B (initT m B true pos) bs).currSetPressure.getD p 0 =
      sumContrib m (runRA m B (initT m B true pos) bs).livePhysRegs
        (runRA m B (initT m B true pos) bs).liveVirtRegs p :=
  (inv_runRA m B hb hnd htriv bs (initT m B true pos)
    (initT_inv m B pos)).2.2 p

/-- Witness for C2 on the concrete fixture: one recede over the
single-use block in interval mode. -/
theorem C2_witness :
    (runRA mVirt bOneUse (initT mVirt bOneUse true 1) [false]).currSetPressure.getD 0 0 =
      sumContrib mVirt
        (runRA mVirt bOneUse (initT mVirt bOneUse true 1) [false]).livePhysRegs
        (runRA mVirt bOneUse (initT mVirt bOneUse true 1) [false]).liveVirtRegs 0 :=
  C2_pressure_sum_invariant mVirt bOneUse
    (fun c q hq => by simp [mVirt] at hq ⊢; omega)
    (fun c => by simp [mVirt])
    (fun r => rfl)
    1 [false] 0

end RegPressure
